import Mathlib

/-!
# A verification development for `shellex.c` (the `sh257` shell)

The C program is embedded shallowly.

* A `char` array is a `List Char`; a pointer into it is an offset (`Nat`).
  A C string is the content of the array from a pointer up to the first
  `NUL`. Every read and write checks the array bounds; an access outside
  the array is undefined behaviour in C and is the result `Res.fault` here.
* `argv` of `parseline` is the list of the pointers stored so far, `argc` is
  its length, and the size of the array `argv` points to is the parameter
  `cap`; a store at an index `≥ cap` is a fault.
* `MAXLINE` comes from `csapp.h`, which is not part of the sources; it is a
  parameter of every definition that uses it.
* The operating system (process identifiers, `chdir`, `getcwd`, `fork`,
  `waitpid`, `execvp`) is the oracle record `OS`; the process is the record `World`
  with its working directory, its status and the trace of its events.
-/

namespace Shellex

/-! ## Memory model -/

/-- The content of a C string (without its terminator). -/
abbrev CStr := List Char

/-- The string terminator `'\0'`. -/
def NUL : Char := Char.ofNat 0

/-- The result of running a piece of C code on the memory model. -/
inductive Res (α : Type) where
  /-- normal completion with a value -/
  | ok (a : α)
  /-- an access outside an array (undefined behaviour) -/
  | fault
  /-- the fuel of a loop of the model ran out -/
  | timeout
  deriving DecidableEq, Repr

/-- The C string stored in `m` at offset `p`: the characters up to the first `NUL`. -/
def cstr (m : List Char) (p : Nat) : CStr :=
  (m.drop p).takeWhile (fun c => c ≠ NUL)

/-- Scan of `strlen` over the cells from the pointer on: the number of
characters before the first `NUL`; `none` when the scan leaves the array. -/
def strlenFrom : List Char → Option Nat
  | [] => none
  | c :: cs => if c = NUL then some 0 else (strlenFrom cs).map (· + 1)

/-- `strlen(m + p)`. -/
def strlen (m : List Char) (p : Nat) : Option Nat :=
  strlenFrom (m.drop p)

/-- Scan of `strchr(s, ch)` over the cells from the pointer on. `some (some k)`:
the first `ch` is `k` cells further; `some none`: the terminator came first
(`strchr` returns `NULL`); `none`: the scan leaves the array. -/
def strchrFrom (ch : Char) : List Char → Option (Option Nat)
  | [] => none
  | c :: cs =>
    if c = ch then some (some 0)
    else if c = NUL then some none
    else (strchrFrom ch cs).map (fun r => r.map (· + 1))

/-- `strchr(m + p, ch)`, as an offset into `m`. -/
def strchr (m : List Char) (p : Nat) (ch : Char) : Option (Option Nat) :=
  (strchrFrom ch (m.drop p)).map (fun r => r.map (p + ·))

/-- Scan of `while (*buf && (*buf == ' ')) buf++;` over the cells from the
pointer on: how far `buf` advances; `none` when a read leaves the array. -/
def skipSpacesFrom : List Char → Option Nat
  | [] => none
  | c :: cs => if c ≠ NUL ∧ c = ' ' then (skipSpacesFrom cs).map (· + 1) else some 0

/-- `while (*buf && (*buf == ' ')) buf++;` from `buf = m + p`: the new offset. -/
def skipSpaces (m : List Char) (p : Nat) : Option Nat :=
  (skipSpacesFrom (m.drop p)).map (p + ·)

/-- `strcpy(dst, src)` where `dst` is a whole array: the characters of `src`
and the terminator are stored at the front of `dst`. -/
def strcpy (dst : List Char) (src : CStr) : Res (List Char) :=
  if src.length + 1 ≤ dst.length then .ok (src ++ NUL :: dst.drop (src.length + 1))
  else .fault

/-! ## `parseline` -/

/-- The loop of `parseline`, lines 127-133:
```
while ((delim = strchr(buf, ' '))) {
    argv[argc++] = buf;
    *delim = '\0';
    buf = delim + 1;
    while (*buf && (*buf == ' ')) buf++;
}
```
`p` is `buf`, `argv` the pointers stored so far. -/
def parseLoop (cap : Nat) : Nat → List Char → Nat → List Nat → Res (List Char × List Nat)
  | 0, _, _, _ => .timeout
  | fuel + 1, m, p, argv =>
    match strchr m p ' ' with
    | none => .fault
    | some none => .ok (m, argv)
    | some (some delim) =>
      if argv.length < cap then
        let m1 := m.set delim NUL
        match skipSpaces m1 (delim + 1) with
        | none => .fault
        | some p1 => parseLoop cap fuel m1 p1 (argv ++ [p])
      else .fault

/-- Lines 123-134 of `parseline`: everything up to and including
`argv[argc] = NULL`. The result is the memory and the pointers stored in
`argv[0..argc-1]`. For an empty string `strlen(buf) - 1` is `SIZE_MAX` and
the store `buf[strlen(buf) - 1] = ' '` is outside the array. The loop gets
`m.length + 1` units of fuel, which is always enough (`parseLoop_terminates`). -/
def parseScan (cap : Nat) (m : List Char) : Res (List Char × List Nat) :=
  match strlen m 0 with
  | none => .fault
  | some 0 => .fault
  | some (n + 1) =>
    let m1 := m.set n ' '
    match skipSpaces m1 0 with
    | none => .fault
    | some p =>
      match parseLoop cap (m1.length + 1) m1 p [] with
      | .ok (m2, argv) => if argv.length < cap then .ok (m2, argv) else .fault
      | .fault => .fault
      | .timeout => .timeout

/-- Lines 136-141 of `parseline`: the test of the last token against `'&'`.
Only the first character of the last token is read (`*argv[argc - 1]`). -/
def parseBg (m : List Char) (argv : List Nat) : Res (List Char × List Nat × Bool) :=
  match argv.getLast? with
  | none => .ok (m, argv, false)
  | some q =>
    match m.get? q with
    | none => .fault
    | some c => if c = '&' then .ok (m, argv.dropLast, true) else .ok (m, argv, false)

/-- `parseline(buf, argv)` on the array `m` (with `buf = m`) and an `argv`
array of `cap` entries: the final memory, the pointers left in `argv` before
its `NULL` entry, and the returned flag `bg`. -/
def parseline (cap : Nat) (m : List Char) : Res (List Char × List Nat × Bool) :=
  match parseScan cap m with
  | .ok (m2, argv) => parseBg m2 argv
  | .fault => .fault
  | .timeout => .timeout

/-- The strings an `argv` of pointers into `m` denotes. -/
def tokens (m : List Char) (argv : List Nat) : List CStr :=
  argv.map (cstr m)

/-- Lines 123-134 of `parseline` with the stored pointers read as strings:
the tokens found before the background marker is removed. -/
def scanVector (cap : Nat) (m : List Char) : Res (List CStr) :=
  match parseScan cap m with
  | .ok (m2, ptrs) => .ok (tokens m2 ptrs)
  | .fault => .fault
  | .timeout => .timeout

/-- `parseline` with the pointers left in `argv` read as strings: the
argument vector and the returned flag. -/
def parseVector (cap : Nat) (m : List Char) : Res (List CStr × Bool) :=
  match parseline cap m with
  | .ok (m2, ptrs, bg) => .ok (tokens m2 ptrs, bg)
  | .fault => .fault
  | .timeout => .timeout

/-- The tokens `parseline` finds in the C string `line` stored in an array
with `junk` after the terminator, before the background marker is removed. -/
def scanTokens (cap : Nat) (line : CStr) (junk : List Char) : Res (List CStr) :=
  scanVector cap (line ++ NUL :: junk)

/-- The argument vector and the flag `parseline` yields for the C string
`line` stored in an array with `junk` after the terminator. -/
def parseTokens (cap : Nat) (line : CStr) (junk : List Char) : Res (List CStr × Bool) :=
  parseVector cap (line ++ NUL :: junk)

/-- Lines 92-93 of `eval` up to the loop of `parseline`: `strcpy(buf, cmdline)`
into the array `buf[MAXLINE]` with content `buf0`, then the scan with the
array `argv[MAXLINE / 2]`. -/
def evalScan (MAXLINE : Nat) (buf0 : List Char) (cmdline : CStr) : Res (List CStr) :=
  match strcpy buf0 cmdline with
  | .ok buf => scanVector (MAXLINE / 2) buf
  | .fault => .fault
  | .timeout => .timeout

/-- Lines 92-93 of `eval`: `strcpy(buf, cmdline); bg = parseline(buf, argv);`
with the arrays `buf[MAXLINE]` (content `buf0` on entry) and
`argv[MAXLINE / 2]`. -/
def evalParse (MAXLINE : Nat) (buf0 : List Char) (cmdline : CStr) : Res (List CStr × Bool) :=
  match strcpy buf0 cmdline with
  | .ok buf => parseVector (MAXLINE / 2) buf
  | .fault => .fault
  | .timeout => .timeout

/-- Spec-worded: the maximal runs of non-space characters of `l`, from left
to right: `l` is cut at every space and the empty pieces are dropped. -/
def maximalRuns (l : CStr) : List CStr :=
  (l.splitOn ' ').filter (fun t => t ≠ [])

/-- Lines 136-141 of `parseline` seen on the token list: the test reads the
first character of the last token. -/
def bgSplit (ts : List CStr) : List CStr × Bool :=
  match ts.getLast? with
  | some (c :: _) => if c = '&' then (ts.dropLast, true) else (ts, false)
  | _ => (ts, false)

/-- The runs of non-space characters of `l` that are followed by a space:
the pieces of `l` cut at every space, without the piece after the last
space and without the empty pieces. -/
def closedRuns (l : CStr) : List CStr :=
  ((l.splitOn ' ').dropLast).filter (fun t => t ≠ [])


/-! ## The process and the operating system -/

/-- The function pointers of the table `builtins`: `fnExit` is the address
of `built_exit`, and so on. -/
inductive Builtin where
  | fnExit
  | fnPid
  | fnPpid
  | fnCd
  | fnHelp
  deriving DecidableEq, Repr

/-- What `fork` returns: the child's identifier in the parent, `0` in the
child, a negative value on failure. -/
inductive ForkResult where
  | parent (pid : Nat)
  | child
  | failed
  deriving DecidableEq, Repr

/-- What `waitpid(pid, &status, 0)` stores in `status`: the child exited
normally with a code (`WIFEXITED` holds and `WEXITSTATUS` is the code), or
it was ended by a signal (`WIFEXITED` does not hold). -/
inductive WaitStatus where
  | exited (code : Nat)
  | signaled (sig : Nat)
  deriving DecidableEq, Repr

/-- The observable events of the process, in the order they happen. -/
inductive Event where
  /-- `printf("%s", prompt)` of `main`, or the write of `prompt` by the handler -/
  | prompt (s : CStr)
  /-- other output on standard output -/
  | stdout (s : CStr)
  /-- output on standard error -/
  | stderr (s : CStr)
  /-- a call `builtin_command(argv)` -/
  | dispatch (argv : List CStr)
  /-- a call `builtins[i].fn(argc, argv)` -/
  | builtin (fn : Builtin) (argc : Nat) (argv : List CStr)
  /-- a call of `Fork` and its outcome -/
  | fork (r : ForkResult)
  /-- a call `Waitpid(pid, &status, 0)` -/
  | waitpid (pid : Nat)
  /-- a call `execvp(file, argv)` -/
  | execvp (file : CStr) (argv : List CStr)
  deriving DecidableEq, Repr

/-- Whether the process still runs, and how it ended otherwise. -/
inductive Status where
  | running
  /-- ended by `SIGKILL` -/
  | killed
  /-- ended by `exit(code)` or by `return code` from `main` -/
  | exited (code : Nat)
  /-- ended by the fatal-error routine `unix_error` -/
  | fatal
  /-- `execvp` succeeded: the program image was replaced -/
  | replaced
  /-- undefined behaviour was reached (an access outside an array) -/
  | undefined
  deriving DecidableEq, Repr

/-- The state of the process. -/
structure World where
  /-- the working directory -/
  cwd : CStr
  /-- the global `prompt` -/
  prompt : CStr
  status : Status
  trace : List Event
  deriving DecidableEq, Repr

/-- The answers of the operating system. `fork`, `waitpid` and `execvp` may
depend on everything that happened before (the trace). -/
structure OS where
  getpid : Nat
  getppid : Nat
  /-- `chdir(path)` from the working directory `cwd`: the new working
  directory, or the text `strerror(errno)` of the failure -/
  chdir : (cwd : CStr) → (path : CStr) → Except CStr CStr
  /-- whether `getcwd` can determine the path of the working directory
  `cwd` (it cannot, for example, once the directory has been removed) -/
  getcwd_ok : List Event → (cwd : CStr) → Bool
  fork : List Event → ForkResult
  /-- `none`: `waitpid` fails -/
  waitpid : List Event → Nat → Option WaitStatus
  /-- `true`: the program image is replaced -/
  execvp : List Event → CStr → List CStr → Bool

/-- Append an event to the trace. -/
def World.emit (w : World) (e : Event) : World :=
  { w with trace := w.trace ++ [e] }

/-- Append events to the trace. -/
def World.emitAll (w : World) (evs : List Event) : World :=
  { w with trace := w.trace ++ evs }

/-- `printf("%d", n)` for a non-negative `n`. -/
def fmtInt (n : Nat) : CStr := Nat.toDigits 10 n

/-- `getcwd(buf, size)`: the path of the working directory when the system
can determine it and it fits the buffer with its terminator, `NULL` (`none`)
otherwise. -/
def getcwd (os : OS) (w : World) (size : Nat) : Option CStr :=
  if os.getcwd_ok w.trace w.cwd = true ∧ w.cwd.length + 1 ≤ size then some w.cwd else none

/-- `snprintf(dst, size, "%s> ", name)`: at most `size - 1` characters are
stored; nothing is stored when `size` is `0`. -/
def snprintf_prompt (dst : CStr) (size : Nat) (name : CStr) : CStr :=
  if size = 0 then dst else (name ++ "> ".toList).take (size - 1)

/-- Modelled from the spec: the fatal-error routine `unix_error` of the
absent `csapp.c` ("print a diagnostic and terminate the whole interpreter"). -/
def unix_error (msg : CStr) (w : World) : World :=
  { (w.emit (.stderr msg)) with status := .fatal }

/-! ## The built-in commands -/

/-- `built_exit`: `raise(SIGKILL)`. -/
def built_exit (w : World) : World :=
  { w with status := .killed }

/-- `built_pid`: `printf("%d\n", getpid())`. -/
def built_pid (os : OS) (w : World) : World :=
  w.emit (.stdout (fmtInt os.getpid ++ ['\n']))

/-- `built_ppid`: `printf("%d\n", getppid())`. -/
def built_ppid (os : OS) (w : World) : World :=
  w.emit (.stdout (fmtInt os.getppid ++ ['\n']))

/-- `built_cd`, lines 179-188, with the buffer `cwd[MAXLINE]`. -/
def built_cd (MAXLINE : Nat) (os : OS) (argc : Nat) (argv : List CStr) (w : World) : World :=
  if argc = 1 then
    match getcwd os w MAXLINE with
    | some d => w.emit (.stdout (d ++ ['\n']))
    | none => w
  else
    match argv.get? 1 with
    | none => { w with status := .undefined }
    | some path =>
      match os.chdir w.cwd path with
      | .ok d => { w with cwd := d }
      | .error msg => w.emit (.stderr ("cd: ".toList ++ msg ++ ['\n']))

/-- The lines `built_help` prints with `puts`. -/
def helpLines : List String :=
  [ "*********************************************************************",
    "",
    "A Custom Shell for CMSC 257",
    "- Developer: Aaron Tuck",
    "",
    "Usage:",
    "- Run \x27./sh257\x27 to start the shell with default prompt \"sh257>\"",
    "- Run \x27./sh257 -p <prompt>\x27 to start the shell with a custom prompt",
    "*********************************************************************",
    "",
    "BUILTIN COMMANDS:",
    "- exit   : Exit the shell",
    "- pid    : Print the process ID of the shell",
    "- ppid   : Print the parent process ID",
    "- cd     : Change the current working directory or print it",
    "- help   : Display this help message",
    "",
    "SYSTEM COMMANDS:",
    "- Use \x27man <command>\x27 to learn about other system commands." ]

/-- `built_help`: one `puts` per line. -/
def built_help (w : World) : World :=
  helpLines.foldl (fun w l => w.emit (.stdout (l.toList ++ ['\n']))) w

/-- The call `builtins[i].fn(argc, argv)`. -/
def callBuiltin (MAXLINE : Nat) (os : OS) (fn : Builtin) (argc : Nat) (argv : List CStr)
    (w : World) : World :=
  let w1 := w.emit (.builtin fn argc argv)
  match fn with
  | .fnExit => built_exit w1
  | .fnPid => built_pid os w1
  | .fnPpid => built_ppid os w1
  | .fnCd => built_cd MAXLINE os argc argv w1
  | .fnHelp => built_help w1

/-- The table `builtins`, lines 33-43, without its closing `{NULL, NULL}`. -/
def builtins : List (CStr × Builtin) :=
  [ ("exit".toList, .fnExit),
    ("pid".toList, .fnPid),
    ("ppid".toList, .fnPpid),
    ("cd".toList, .fnCd),
    ("help".toList, .fnHelp) ]

/-- The loop `for (int i = 0; builtins[i].name; i++)` of `builtin_command`
from entry `i` on: the first entry whose name is `strcmp`-equal to `arg0`. -/
def builtin_lookup (arg0 : CStr) : List (CStr × Builtin) → Option Builtin
  | [] => none
  | (name, fn) :: rest => if arg0 = name then some fn else builtin_lookup arg0 rest

/-- `builtin_command(argv)`, lines 146-158: the state after the call and
the value returned; `none` when nothing is returned because the process has
ended inside the call (`built_exit` raises `SIGKILL`, and control never
reaches `return 1`). `argc` is counted up to the `NULL` entry, which is the
length of the vector. With an empty vector `argv[0]` is `NULL` and `strcmp`
reads through it. -/
def builtin_command (MAXLINE : Nat) (os : OS) (argv : List CStr) (w : World) :
    World × Option Nat :=
  match argv with
  | [] => ({ w with status := .undefined }, none)
  | arg0 :: _ =>
    if arg0 = "&".toList then (w, some 1)
    else
      match builtin_lookup arg0 builtins with
      | some fn =>
        let w1 := callBuiltin MAXLINE os fn argv.length argv w
        if w1.status = .running then (w1, some 1) else (w1, none)
      | none => (w, some 0)

/-! ## `eval` and `main` -/

/-- Modelled from the spec: the wrapper `Fork` of the absent `csapp.c`
("if process creation itself fails ... this is a fatal condition — print a
diagnostic and terminate the whole interpreter"). It returns the outcome of
`fork`; on failure the process has ended and the outcome is not used. -/
def Fork (os : OS) (w : World) : World × ForkResult :=
  let r := os.fork w.trace
  let w1 := w.emit (.fork r)
  match r with
  | .failed => (unix_error "Fork error".toList w1, r)
  | _ => (w1, r)

/-- Modelled from the spec: the wrapper `Waitpid` of the absent `csapp.c`
("if waiting on a foreground child fails ... this is a fatal condition"):
the status of the child, or `none` when the wait failed and the process has
ended. -/
def Waitpid (os : OS) (pid : Nat) (w : World) : World × Option WaitStatus :=
  let w1 := w.emit (.waitpid pid)
  match os.waitpid w.trace pid with
  | none => (unix_error "Waitpid error".toList w1, none)
  | some st => (w1, some st)

/-- Lines 98-113 of `eval`: `Fork`, the child's `execvp`, the parent's wait
or background notice. -/
def launch (os : OS) (cmdline : CStr) (argv : List CStr) (bg : Bool) (w : World) : World :=
  let f := Fork os w
  match f.2 with
  | .failed => f.1
  | .child =>
    let w2 := f.1.emit (.execvp (argv.headD []) argv)
    if os.execvp f.1.trace (argv.headD []) argv then { w2 with status := .replaced }
    else
      let w3 := w2.emit (.stdout "Execution failed (in fork)\n".toList)
      let w4 := w3.emit (.stdout (argv.headD [] ++ ": Command not found.\n".toList))
      { w4 with status := .exited 1 }
  | .parent pid =>
    if !bg then
      let r := Waitpid os pid f.1
      match r.2 with
      | none => r.1
      | some (.exited code) =>
        r.1.emit (.stdout ("Process exited with status code ".toList ++ fmtInt code ++ ['\n']))
      | some (.signaled _) => r.1
    else
      f.1.emit (.stdout (fmtInt pid ++ ' ' :: cmdline))

/-- `eval(cmdline)`, lines 85-114. `buf0` is the content of the local array
`buf[MAXLINE]` on entry; `argv` has `MAXLINE / 2` entries. The test
`argv[0] == NULL` is the test for an empty vector. After the dispatcher
`eval` goes on to the launcher only when the value `0` was returned; with
another value it returns, and with no value the process has ended. -/
def eval (MAXLINE : Nat) (os : OS) (buf0 : List Char) (cmdline : CStr) (w : World) : World :=
  match evalParse MAXLINE buf0 cmdline with
  | .ok (argv, bg) =>
    if argv = [] then w
    else
      let r := builtin_command MAXLINE os argv (w.emit (.dispatch argv))
      if r.2 ≠ some 0 then r.1
      else launch os cmdline argv bg r.1
  | .fault => { w with status := .undefined }
  | .timeout => { w with status := .undefined }

/-- The number of `Fork` calls in a trace. -/
def forkCalls (t : List Event) : Nat :=
  (t.filter (fun e => match e with | .fork _ => true | _ => false)).length

/-- The argument vectors `builtin_command` was called with in a trace. -/
def dispatched (t : List Event) : List (List CStr) :=
  t.filterMap (fun e => match e with | .dispatch a => some a | _ => none)

/-- The prompts displayed in a trace. -/
def promptsShown (t : List Event) : List CStr :=
  t.filterMap (fun e => match e with | .prompt s => some s | _ => none)

/-- What happens at the blocking `fgets` of `main`. -/
inductive Input where
  /-- `fgets` stores a line -/
  | line (s : CStr)
  /-- `fgets` returns `NULL` at the end of the input -/
  | eof
  /-- `fgets` returns `NULL` with the error indicator set -/
  | readError
  /-- an interrupt signal arrives while `fgets` waits -/
  | sigint
  deriving DecidableEq, Repr

/-- The static initialiser of `prompt`, line 17. -/
def defaultPrompt : CStr := "sh257> ".toList

/-- Lines 60-62 of `main`: the prompt after startup. `args` is `argv` with
the program name first, `argc` its length. -/
def startup_prompt (MAXLINE : Nat) (args : List CStr) (prompt : CStr) : CStr :=
  if args.length = 3 ∧ args.get? 1 = some "-p".toList then
    snprintf_prompt prompt MAXLINE (args.getD 2 [])
  else prompt

/-- `printf("%s", prompt)` of `main`, line 67. -/
def show_prompt (w : World) : World :=
  w.emit (.prompt w.prompt)

/-- `sigint_handler`, lines 47-51. -/
def sigint_handler (w : World) : World :=
  (w.emit (.stdout ['\n'])).emit (.prompt w.prompt)

/-- The loop of `main`, lines 66-78, from the blocking `fgets` on (the
prompt of this round is already out). When the inputs end the process is
left waiting in `fgets`. -/
def main_loop (MAXLINE : Nat) (os : OS) (buf0 : List Char) : List Input → World → World
  | [], w => w
  | .sigint :: rest, w => main_loop MAXLINE os buf0 rest (sigint_handler w)
  | .eof :: _, w => { w with status := .exited 0 }
  | .readError :: rest, w => main_loop MAXLINE os buf0 rest (show_prompt w)
  | .line s :: rest, w =>
    let w1 := eval MAXLINE os buf0 s w
    if w1.status = .running then main_loop MAXLINE os buf0 rest (show_prompt w1) else w1

/-- `main(argc, argv)`, lines 56-81, started in the directory `cwd`. -/
def main (MAXLINE : Nat) (os : OS) (buf0 : List Char) (args : List CStr) (cwd : CStr)
    (inputs : List Input) : World :=
  let w0 : World :=
    { cwd := cwd, prompt := startup_prompt MAXLINE args defaultPrompt,
      status := .running, trace := [] }
  main_loop MAXLINE os buf0 inputs (show_prompt w0)

/-- An event that is neither a `Fork` call, nor a call of the dispatcher,
nor a display of the prompt. -/
def Event.quiet (e : Event) : Prop :=
  forkCalls [e] = 0 ∧ dispatched [e] = [] ∧ promptsShown [e] = []

/-- An operating system for the examples: every `chdir` fails unless the
path is `/tmp`, `getcwd` can always determine the path, `fork` returns
child `77` to the parent, and the child exits with code `0`. -/
def demoOS : OS where
  getpid := 4242
  getppid := 1
  chdir := fun _ p =>
    if p = "/tmp".toList then .ok p else .error "No such file or directory".toList
  getcwd_ok := fun _ _ => true
  fork := fun _ => .parent 77
  waitpid := fun _ _ => some (.exited 0)
  execvp := fun _ _ _ => false

/-- The operating system `demoOS` after the working directory has been
removed: `getcwd` cannot determine its path any more. -/
def removedDirOS : OS :=
  { demoOS with getcwd_ok := fun _ _ => false }

/-- A process in the directory `cwd` with the default prompt and an empty trace. -/
def startWorld (cwd : CStr) : World :=
  { cwd := cwd, prompt := defaultPrompt, status := .running, trace := [] }

/-- A directory path of 8192 characters: 64 components of 127 characters. -/
def longDir : CStr :=
  (List.replicate 64 ('/' :: List.replicate 127 'd')).flatten

/-- A prompt name of 8190 characters. -/
def longName : CStr := List.replicate 8190 'a'

/-! ## Scans over a string -/

theorem strlenFrom_cstring (s : CStr) (junk : List Char) (hs : NUL ∉ s) :
    strlenFrom (s ++ NUL :: junk) = some s.length := by
  induction s with
  | nil => simp [strlenFrom]
  | cons c cs ih =>
    have hc : c ≠ NUL := fun h => hs (by simp [h])
    have hcs : NUL ∉ cs := fun h => hs (List.mem_cons_of_mem _ h)
    simp [strlenFrom, hc, ih hcs]

theorem strchrFrom_found (tok rest : List Char) (hsp : ' ' ∉ tok) (hnul : NUL ∉ tok) :
    strchrFrom ' ' (tok ++ ' ' :: rest) = some (some tok.length) := by
  induction tok with
  | nil => simp [strchrFrom]
  | cons c cs ih =>
    have h1 : c ≠ ' ' := fun h => hsp (by simp [h])
    have h2 : c ≠ NUL := fun h => hnul (by simp [h])
    have h3 : ' ' ∉ cs := fun h => hsp (List.mem_cons_of_mem _ h)
    have h4 : NUL ∉ cs := fun h => hnul (List.mem_cons_of_mem _ h)
    simp [strchrFrom, h1, h2, ih h3 h4]

theorem strchrFrom_none (tok junk : List Char) (hsp : ' ' ∉ tok) (hnul : NUL ∉ tok) :
    strchrFrom ' ' (tok ++ NUL :: junk) = some none := by
  induction tok with
  | nil => simp [strchrFrom, NUL]
  | cons c cs ih =>
    have h1 : c ≠ ' ' := fun h => hsp (by simp [h])
    have h2 : c ≠ NUL := fun h => hnul (by simp [h])
    have h3 : ' ' ∉ cs := fun h => hsp (List.mem_cons_of_mem _ h)
    have h4 : NUL ∉ cs := fun h => hnul (List.mem_cons_of_mem _ h)
    simp [strchrFrom, h1, h2, ih h3 h4]

theorem skipSpacesFrom_spaces (sp rest : List Char) (hsp : ∀ c ∈ sp, c = ' ')
    (hrest : rest ≠ []) (hhead : rest.head? ≠ some ' ') :
    skipSpacesFrom (sp ++ rest) = some sp.length := by
  induction sp with
  | nil =>
    cases rest with
    | nil => exact absurd rfl hrest
    | cons c cs =>
      have hc : c ≠ ' ' := fun h => hhead (by simp [h])
      simp [skipSpacesFrom, hc]
  | cons c cs ih =>
    have hc : c = ' ' := hsp c (by simp)
    have hcs : ∀ d ∈ cs, d = ' ' := fun d hd => hsp d (List.mem_cons_of_mem _ hd)
    subst hc
    simp [skipSpacesFrom, NUL, ih hcs]

theorem cstr_at (pre tok rest : List Char) (hnul : NUL ∉ tok) :
    cstr (pre ++ tok ++ NUL :: rest) pre.length = tok := by
  unfold cstr
  rw [List.append_assoc, List.drop_left, List.takeWhile_append_of_pos]
  · simp [List.takeWhile]
  · intro a ha
    have : a ≠ NUL := fun h => hnul (h ▸ ha)
    simpa using this

theorem set_at (pre rest : List Char) (x y : Char) :
    (pre ++ x :: rest).set pre.length y = pre ++ y :: rest := by
  rw [List.set_append_right _ _ (Nat.le_refl _)]
  simp


/-! ## Cutting a line at its spaces -/

theorem splitOn_space_cons (rest : CStr) :
    (' ' :: rest).splitOn ' ' = [] :: rest.splitOn ' ' := by
  simp [List.splitOn, List.splitOnP_cons]

theorem splitOn_ne_nil (l : CStr) : l.splitOn ' ' ≠ [] := by
  simp [List.splitOn, List.splitOnP_ne_nil]

theorem splitOn_no_space (tok : CStr) (h : ' ' ∉ tok) : tok.splitOn ' ' = [tok] := by
  unfold List.splitOn
  apply List.splitOnP_eq_single
  intro x hx hp
  have : x = ' ' := by simpa using hp
  exact h (this ▸ hx)

theorem splitOn_first (tok rest : CStr) (h : ' ' ∉ tok) :
    (tok ++ ' ' :: rest).splitOn ' ' = tok :: rest.splitOn ' ' := by
  unfold List.splitOn
  apply List.splitOnP_first
  · intro x hx hp
    have : x = ' ' := by simpa using hp
    exact h (this ▸ hx)
  · simp

theorem splitOn_snoc_space (l : CStr) :
    (l ++ [' ']).splitOn ' ' = l.splitOn ' ' ++ [[]] := by
  induction l with
  | nil => decide
  | cons c cs ih =>
    have hne := splitOn_ne_nil cs
    unfold List.splitOn at ih hne ⊢
    rw [List.cons_append, List.splitOnP_cons, List.splitOnP_cons, ih]
    by_cases hc : (c == ' ') = true
    · simp [hc]
    · simp only [hc]
      cases hs : List.splitOnP (fun x => x == ' ') cs with
      | nil => exact absurd hs hne
      | cons a as => simp [List.modifyHead]

theorem closedRuns_no_space (tok : CStr) (h : ' ' ∉ tok) : closedRuns tok = [] := by
  simp [closedRuns, splitOn_no_space tok h]

theorem closedRuns_space_cons (rest : CStr) : closedRuns (' ' :: rest) = closedRuns rest := by
  unfold closedRuns
  rw [splitOn_space_cons, List.dropLast_cons_of_ne_nil (splitOn_ne_nil rest)]
  simp

theorem closedRuns_spaces (sp w : CStr) (hsp : ∀ c ∈ sp, c = ' ') :
    closedRuns (sp ++ w) = closedRuns w := by
  induction sp with
  | nil => rfl
  | cons c cs ih =>
    have hc : c = ' ' := hsp c (by simp)
    subst hc
    rw [List.cons_append, closedRuns_space_cons]
    exact ih (fun d hd => hsp d (List.mem_cons_of_mem _ hd))

theorem closedRuns_first (tok rest : CStr) (hne : tok ≠ []) (h : ' ' ∉ tok) :
    closedRuns (tok ++ ' ' :: rest) = tok :: closedRuns rest := by
  unfold closedRuns
  rw [splitOn_first tok rest h, List.dropLast_cons_of_ne_nil (splitOn_ne_nil rest)]
  simp [hne]

theorem closedRuns_snoc_space (l : CStr) : closedRuns (l ++ [' ']) = maximalRuns l := by
  unfold closedRuns maximalRuns
  rw [splitOn_snoc_space, List.dropLast_concat]

theorem dropWhile_cons_head {p : Char → Bool} :
    ∀ (l : List Char) {c : Char} {r : List Char}, l.dropWhile p = c :: r → p c = false
  | [], _, _, h => by simp at h
  | x :: xs, c, r, h => by
    by_cases hx : p x = true
    · rw [List.dropWhile_cons_of_pos hx] at h
      exact dropWhile_cons_head xs h
    · rw [List.dropWhile_cons_of_neg hx] at h
      injection h with h1 _
      subst h1
      simpa using hx

/-- Induction over a line that does not start with a space: either it has no
space at all, or it is a nonempty run, a space, further spaces, and a rest
that again does not start with a space. -/
theorem runs_induction {P : CStr → Prop}
    (base : ∀ tok : CStr, ' ' ∉ tok → P tok)
    (step : ∀ tok sp w : CStr, tok ≠ [] → ' ' ∉ tok → (∀ c ∈ sp, c = ' ') →
      w.head? ≠ some ' ' → P w → P (tok ++ ' ' :: (sp ++ w)))
    (w : CStr) (hw : w.head? ≠ some ' ') : P w := by
  generalize hn : w.length = n
  induction n using Nat.strong_induction_on generalizing w with
  | _ n ih =>
    have hsplit := List.takeWhile_append_dropWhile (fun c => c ≠ ' ') w
    have htok : ' ' ∉ w.takeWhile (fun c => c ≠ ' ') := by
      intro hmem
      have := List.mem_takeWhile_imp hmem
      simp at this
    cases hr : w.dropWhile (fun c => c ≠ ' ') with
    | nil =>
      rw [hr, List.append_nil] at hsplit
      rw [← hsplit]
      exact base _ htok
    | cons c r =>
      have hc : c = ' ' := by
        have := dropWhile_cons_head w hr
        simpa using this
      subst hc
      have hsplit2 := List.takeWhile_append_dropWhile (fun c => c = ' ') r
      have hsp : ∀ c ∈ r.takeWhile (fun c => c = ' '), c = ' ' := by
        intro c hmem
        have := List.mem_takeWhile_imp hmem
        simpa using this
      have hhead : (r.dropWhile (fun c => c = ' ')).head? ≠ some ' ' := by
        intro hh
        cases hd : r.dropWhile (fun c => decide (c = ' ')) with
        | nil => rw [hd] at hh; simp at hh
        | cons d ds =>
          rw [hd] at hh
          have hd1 : d = ' ' := by simpa using hh
          have := dropWhile_cons_head r hd
          simp [hd1] at this
      have htne : w.takeWhile (fun c => c ≠ ' ') ≠ [] := by
        intro he
        rw [he, hr, List.nil_append] at hsplit
        rw [← hsplit] at hw
        simp at hw
      have hw_eq : w = w.takeWhile (fun c => c ≠ ' ') ++ ' ' ::
          (r.takeWhile (fun c => c = ' ') ++ r.dropWhile (fun c => c = ' ')) := by
        rw [hsplit2, ← hr, hsplit]
      have hlen : (r.dropWhile (fun c => c = ' ')).length < n := by
        rw [← hn]
        have h1 := congrArg List.length hsplit
        have h2 := congrArg List.length hsplit2
        rw [hr] at h1
        simp only [List.length_append, List.length_cons] at h1 h2
        omega
      rw [hw_eq]
      exact step _ _ _ htne htok hsp hhead (ih _ hlen _ hhead rfl)

theorem spaces_split (l : CStr) :
    ∃ sp w : CStr, l = sp ++ w ∧ (∀ c ∈ sp, c = ' ') ∧ w.head? ≠ some ' ' := by
  induction l with
  | nil => exact ⟨[], [], rfl, by simp, by simp⟩
  | cons c cs ih =>
    by_cases hc : c = ' '
    · obtain ⟨sp, w, h1, h2, h3⟩ := ih
      refine ⟨c :: sp, w, by simp [h1], ?_, h3⟩
      intro d hd
      rcases List.mem_cons.mp hd with h | h
      · exact h ▸ hc
      · exact h2 d h
    · exact ⟨[], c :: cs, rfl, by simp, by simpa using hc⟩

theorem closedRuns_length_runs (w : CStr) (hw : w.head? ≠ some ' ') :
    2 * (closedRuns w).length ≤ w.length := by
  refine runs_induction (P := fun w => 2 * (closedRuns w).length ≤ w.length) ?_ ?_ w hw
  · intro tok h
    simp [closedRuns_no_space tok h]
  · intro tok sp w hne h hsp _ ih
    rw [closedRuns_first tok _ hne h, closedRuns_spaces sp w hsp]
    have : 0 < tok.length := List.length_pos.mpr hne
    simp only [List.length_append, List.length_cons]
    omega

theorem closedRuns_length (l : CStr) : 2 * (closedRuns l).length ≤ l.length := by
  obtain ⟨sp, w, h1, h2, h3⟩ := spaces_split l
  rw [h1, closedRuns_spaces sp w h2, List.length_append]
  have := closedRuns_length_runs w h3
  omega

theorem closedRuns_mem (l t : CStr) (ht : t ∈ closedRuns l) : t ≠ [] ∧ ' ' ∉ t := by
  obtain ⟨sp, w, h1, h2, h3⟩ := spaces_split l
  rw [h1, closedRuns_spaces sp w h2] at ht
  clear h1
  revert ht
  refine runs_induction (P := fun w => t ∈ closedRuns w → t ≠ [] ∧ ' ' ∉ t) ?_ ?_ w h3
  · intro tok h ht
    simp [closedRuns_no_space tok h] at ht
  · intro tok sp w hne h hsp _ ih ht
    rw [closedRuns_first tok _ hne h, closedRuns_spaces sp w hsp] at ht
    rcases List.mem_cons.mp ht with h1 | h1
    · exact h1 ▸ ⟨hne, h⟩
    · exact ih h1


/-! ## The loop of `parseline` -/

theorem strchr_found (pre tok rest : List Char) (hsp : ' ' ∉ tok) (hnul : NUL ∉ tok) :
    strchr (pre ++ tok ++ ' ' :: rest) pre.length ' ' = some (some (pre.length + tok.length)) := by
  unfold strchr
  rw [List.append_assoc, List.drop_left, strchrFrom_found tok rest hsp hnul]
  rfl

theorem strchr_none (pre tok junk : List Char) (hsp : ' ' ∉ tok) (hnul : NUL ∉ tok) :
    strchr (pre ++ tok ++ NUL :: junk) pre.length ' ' = some none := by
  unfold strchr
  rw [List.append_assoc, List.drop_left, strchrFrom_none tok junk hsp hnul]
  rfl

theorem skipSpaces_spaces (pre sp rest : List Char) (hsp : ∀ c ∈ sp, c = ' ')
    (hrest : rest ≠ []) (hhead : rest.head? ≠ some ' ') :
    skipSpaces (pre ++ sp ++ rest) pre.length = some (pre.length + sp.length) := by
  unfold skipSpaces
  rw [List.append_assoc, List.drop_left, skipSpacesFrom_spaces sp rest hsp hrest hhead]
  rfl

theorem head?_append_nul (w junk : List Char) (hw : w.head? ≠ some ' ') :
    (w ++ NUL :: junk).head? ≠ some ' ' := by
  cases w with
  | nil => simp [NUL]
  | cons c cs => simpa using hw

/-- The loop of `parseline` from a pointer that is not at a space: it ends
normally, stores one pointer per run that is followed by a space, and the
strings at these pointers in the final memory are these runs. -/
theorem parseLoop_runs (cap : Nat) (junk : List Char) (w : CStr) (hw : w.head? ≠ some ' ') :
    NUL ∉ w → ∀ (fuel : Nat) (pre : List Char) (argv : List Nat), w.length < fuel →
      argv.length + (closedRuns w).length ≤ cap →
      ∃ suf ptrs, parseLoop cap fuel (pre ++ w ++ NUL :: junk) pre.length argv
          = .ok (pre ++ suf, argv ++ ptrs) ∧
        tokens (pre ++ suf) ptrs = closedRuns w ∧
        suf.length = w.length + 1 + junk.length := by
  refine runs_induction (P := fun w => NUL ∉ w → ∀ (fuel : Nat) (pre : List Char)
      (argv : List Nat), w.length < fuel → argv.length + (closedRuns w).length ≤ cap →
      ∃ suf ptrs, parseLoop cap fuel (pre ++ w ++ NUL :: junk) pre.length argv
          = .ok (pre ++ suf, argv ++ ptrs) ∧
        tokens (pre ++ suf) ptrs = closedRuns w ∧
        suf.length = w.length + 1 + junk.length) ?_ ?_ w hw
  · intro tok hsp hnul fuel pre argv hfuel _
    cases fuel with
    | zero => omega
    | succ f =>
      refine ⟨tok ++ NUL :: junk, [], ?_, ?_, ?_⟩
      · rw [parseLoop, strchr_none pre tok junk hsp hnul]
        simp
      · simp [tokens, closedRuns_no_space tok hsp]
      · simp
        omega
  · intro tok sp w1 hne hsp hspaces hhead ih hnul fuel pre argv hfuel hcap
    have hnul_tok : NUL ∉ tok := fun h => hnul (by simp [h])
    have hnul_w1 : NUL ∉ w1 := fun h => hnul (by simp [h])
    have hruns : closedRuns (tok ++ ' ' :: (sp ++ w1)) = tok :: closedRuns w1 := by
      rw [closedRuns_first tok _ hne hsp, closedRuns_spaces sp w1 hspaces]
    rw [hruns] at hcap ⊢
    simp only [List.length_cons] at hcap
    cases fuel with
    | zero => omega
    | succ f =>
      have hm : pre ++ (tok ++ ' ' :: (sp ++ w1)) ++ NUL :: junk
          = pre ++ tok ++ ' ' :: (sp ++ (w1 ++ NUL :: junk)) := by simp
      have hset : (pre ++ tok ++ ' ' :: (sp ++ (w1 ++ NUL :: junk))).set
          (pre.length + tok.length) NUL
          = (pre ++ tok ++ [NUL]) ++ sp ++ (w1 ++ NUL :: junk) := by
        have := set_at (pre ++ tok) (sp ++ (w1 ++ NUL :: junk)) ' ' NUL
        rw [List.length_append] at this
        rw [this]
        simp
      have hskip : skipSpaces ((pre ++ tok ++ [NUL]) ++ sp ++ (w1 ++ NUL :: junk))
          (pre.length + tok.length + 1) = some ((pre ++ tok ++ [NUL] ++ sp).length) := by
        have := skipSpaces_spaces (pre ++ tok ++ [NUL]) sp (w1 ++ NUL :: junk) hspaces
          (by simp) (head?_append_nul w1 junk hhead)
        simp only [List.length_append, List.length_cons, List.length_nil] at this ⊢
        exact this
      have hlen : w1.length < f := by
        simp only [List.length_append, List.length_cons] at hfuel
        omega
      have hcap1 : (argv ++ [pre.length]).length + (closedRuns w1).length ≤ cap := by
        simp only [List.length_append, List.length_cons, List.length_nil]
        omega
      obtain ⟨suf1, ptrs1, h1, h2, h3⟩ := ih hnul_w1 f (pre ++ tok ++ [NUL] ++ sp)
        (argv ++ [pre.length]) hlen hcap1
      refine ⟨tok ++ NUL :: (sp ++ suf1), pre.length :: ptrs1, ?_, ?_, ?_⟩
      · rw [parseLoop, hm, strchr_found pre tok _ hsp hnul_tok]
        simp only
        rw [if_pos (by omega), hset, hskip]
        simp only
        have hm2 : pre ++ tok ++ [NUL] ++ sp ++ (w1 ++ NUL :: junk)
            = pre ++ tok ++ [NUL] ++ sp ++ w1 ++ NUL :: junk := by simp
        rw [hm2, h1]
        simp
      · have hmem : pre ++ (tok ++ NUL :: (sp ++ suf1)) = pre ++ tok ++ [NUL] ++ sp ++ suf1 := by
          simp
        have hfirst : cstr (pre ++ (tok ++ NUL :: (sp ++ suf1))) pre.length = tok := by
          have := cstr_at pre tok (sp ++ suf1) hnul_tok
          simpa using this
        simp only [tokens, List.map_cons, hfirst]
        rw [hmem]
        simp only [tokens] at h2
        rw [h2]
      · simp only [List.length_append, List.length_cons]
        omega


/-! ## `parseline` on a line -/

theorem cstr_head (m : List Char) (q : Nat) (c : Char) (t : CStr) (h : cstr m q = c :: t) :
    m.get? q = some c := by
  unfold cstr at h
  have h1 := List.head?_takeWhile (fun c => decide (c ≠ NUL)) (m.drop q)
  rw [h, List.head?_drop] at h1
  simp only [List.head?_cons] at h1
  rw [List.get?_eq_getElem?]
  cases hq : m[q]? with
  | none => rw [hq] at h1; simp at h1
  | some d =>
    rw [hq] at h1
    simp only [Option.filter] at h1
    split at h1
    · exact h1.symm
    · simp at h1

/-- Lines 123-134 on a nonempty line `body ++ [c]`: the last character is
overwritten with a space and the pointers stored are those of the maximal
runs of non-space characters of `body`. -/
theorem parseScan_line (cap : Nat) (body : CStr) (c : Char) (junk : List Char)
    (hbody : NUL ∉ body) (hc : c ≠ NUL) (hcap : (body.length + 1) / 2 < cap) :
    ∃ m argv, parseScan cap (body ++ [c] ++ NUL :: junk) = .ok (m, argv) ∧
      tokens m argv = maximalRuns body ∧ m.length = body.length + 2 + junk.length := by
  obtain ⟨sp, w, hsplit, hsp, hhead⟩ := spaces_split (body ++ [' '])
  have hnulw : NUL ∉ w := by
    intro h
    have : NUL ∈ body ++ [' '] := by rw [hsplit]; simp [h]
    rcases List.mem_append.mp this with h1 | h1
    · exact hbody h1
    · simp [NUL] at h1
  have hruns : closedRuns w = maximalRuns body := by
    rw [← closedRuns_spaces sp w hsp, ← hsplit, closedRuns_snoc_space]
  have hcount : 2 * (closedRuns w).length ≤ body.length + 1 := by
    have := closedRuns_length (body ++ [' '])
    rw [hsplit, closedRuns_spaces sp w hsp] at this
    have h2 := congrArg List.length hsplit
    simp only [List.length_append, List.length_cons, List.length_nil] at h2 this
    omega
  have hstrlen : strlen (body ++ [c] ++ NUL :: junk) 0 = some (body.length + 1) := by
    unfold strlen
    have := strlenFrom_cstring (body ++ [c]) junk (by
      intro h
      rcases List.mem_append.mp h with h1 | h1
      · exact hbody h1
      · simp at h1
        exact hc h1.symm)
    simpa using this
  have hset : (body ++ [c] ++ NUL :: junk).set body.length ' '
      = sp ++ w ++ NUL :: junk := by
    have := set_at body (NUL :: junk) c ' '
    rw [← hsplit]
    simp [this]
  have hskip : skipSpaces (sp ++ w ++ NUL :: junk) 0 = some sp.length := by
    have := skipSpaces_spaces [] sp (w ++ NUL :: junk) hsp (by simp)
      (head?_append_nul w junk hhead)
    simpa using this
  have hlenm : (sp ++ w ++ NUL :: junk).length = body.length + 2 + junk.length := by
    have h2 := congrArg List.length hsplit
    simp only [List.length_append, List.length_cons, List.length_nil] at h2 ⊢
    omega
  obtain ⟨suf, ptrs, h1, h2, h3⟩ := parseLoop_runs cap junk w hhead hnulw
    ((sp ++ w ++ NUL :: junk).length + 1) sp [] (by
      simp only [List.length_append, List.length_cons]; omega) (by
      simp only [List.length_nil]; omega)
  refine ⟨sp ++ suf, ptrs, ?_, ?_, ?_⟩
  · unfold parseScan
    rw [hstrlen]
    simp only
    rw [hset, hskip]
    simp only
    rw [h1]
    simp only [List.nil_append]
    rw [if_pos]
    have h4 := congrArg List.length h2
    simp only [tokens, List.length_map] at h4
    omega
  · rw [h2, hruns]
  · have h2 := congrArg List.length hsplit
    simp only [List.length_append, List.length_cons, List.length_nil] at h2 ⊢
    omega

theorem tokens_dropLast (m : List Char) (argv : List Nat) :
    tokens m argv.dropLast = (tokens m argv).dropLast := by
  unfold tokens
  induction argv with
  | nil => rfl
  | cons a as ih =>
    cases as with
    | nil => rfl
    | cons b bs => simp only [List.dropLast, List.map_cons, ih] 

/-- Lines 136-141 on pointers whose strings are nonempty. -/
theorem parseBg_tokens (m : List Char) (argv : List Nat)
    (hne : ∀ t ∈ tokens m argv, t ≠ []) :
    ∃ argv1 bg, parseBg m argv = .ok (m, argv1, bg) ∧
      (tokens m argv1, bg) = bgSplit (tokens m argv) := by
  unfold parseBg bgSplit
  cases hlast : argv.getLast? with
  | none =>
    have : argv = [] := List.getLast?_eq_none_iff.mp hlast
    subst this
    exact ⟨[], false, rfl, rfl⟩
  | some q =>
    have hl : (tokens m argv).getLast? = some (cstr m q) := by
      simp [tokens, hlast]
    have hmem : cstr m q ∈ tokens m argv := List.mem_of_getLast?_eq_some hl
    cases ht : cstr m q with
    | nil => exact absurd ht (hne _ hmem)
    | cons c t =>
      rw [hl, ht]
      simp only [cstr_head m q c t ht]
      by_cases hamp : c = '&'
      · rw [if_pos hamp, if_pos hamp]
        exact ⟨argv.dropLast, true, rfl, by rw [tokens_dropLast]⟩
      · rw [if_neg hamp, if_neg hamp]
        exact ⟨argv, false, rfl, rfl⟩

/-- `parseline` on a nonempty line `body ++ [c]` in an array with room for
the pointers: it completes, and the vector and the flag are those of the
maximal runs of `body`, with the test of `'&'` on the first character of
the last run. -/
theorem parseTokens_line (cap : Nat) (body : CStr) (c : Char) (junk : List Char)
    (hbody : NUL ∉ body) (hc : c ≠ NUL) (hcap : (body.length + 1) / 2 < cap) :
    parseTokens cap (body ++ [c]) junk = .ok (bgSplit (maximalRuns body)) := by
  obtain ⟨m, argv, h1, h2, _⟩ := parseScan_line cap body c junk hbody hc hcap
  have hne : ∀ t ∈ tokens m argv, t ≠ [] := by
    intro t ht
    rw [h2, ← closedRuns_snoc_space] at ht
    exact (closedRuns_mem _ t ht).1
  obtain ⟨argv1, bg, h3, h4⟩ := parseBg_tokens m argv hne
  unfold parseTokens parseVector parseline
  rw [h1]
  simp only
  rw [h3]
  simp only
  rw [h4, h2]

theorem scanTokens_line (cap : Nat) (body : CStr) (c : Char) (junk : List Char)
    (hbody : NUL ∉ body) (hc : c ≠ NUL) (hcap : (body.length + 1) / 2 < cap) :
    scanTokens cap (body ++ [c]) junk = .ok (maximalRuns body) := by
  obtain ⟨m, argv, h1, h2, _⟩ := parseScan_line cap body c junk hbody hc hcap
  unfold scanTokens scanVector
  rw [h1]
  simp only
  rw [h2]


theorem strcpy_fits (buf0 : List Char) (line : CStr) (h : line.length < buf0.length) :
    strcpy buf0 line = .ok (line ++ NUL :: buf0.drop (line.length + 1)) := by
  unfold strcpy
  rw [if_pos (by omega)]

theorem evalScan_line (MAXLINE : Nat) (buf0 : List Char) (body : CStr) (c : Char)
    (hM : MAXLINE % 2 = 0) (hbuf : buf0.length = MAXLINE) (hbody : NUL ∉ body) (hc : c ≠ NUL)
    (hfit : body.length + 1 < MAXLINE) :
    evalScan MAXLINE buf0 (body ++ [c]) = .ok (maximalRuns body) := by
  unfold evalScan
  have hlen : (body ++ [c]).length < buf0.length := by
    simp only [List.length_append, List.length_cons, List.length_nil]
    omega
  rw [strcpy_fits buf0 (body ++ [c]) hlen]
  exact scanTokens_line (MAXLINE / 2) body c _ hbody hc (by omega)

theorem evalParse_line (MAXLINE : Nat) (buf0 : List Char) (body : CStr) (c : Char)
    (hM : MAXLINE % 2 = 0) (hbuf : buf0.length = MAXLINE) (hbody : NUL ∉ body) (hc : c ≠ NUL)
    (hfit : body.length + 1 < MAXLINE) :
    evalParse MAXLINE buf0 (body ++ [c]) = .ok (bgSplit (maximalRuns body)) := by
  unfold evalParse
  have hlen : (body ++ [c]).length < buf0.length := by
    simp only [List.length_append, List.length_cons, List.length_nil]
    omega
  rw [strcpy_fits buf0 (body ++ [c]) hlen]
  exact parseTokens_line (MAXLINE / 2) body c _ hbody hc (by omega)

theorem maximalRuns_mem (l t : CStr) (ht : t ∈ maximalRuns l) : t ≠ [] ∧ ' ' ∉ t := by
  rw [← closedRuns_snoc_space] at ht
  exact closedRuns_mem _ t ht

theorem maximalRuns_length (l : CStr) : 2 * (maximalRuns l).length ≤ l.length + 1 := by
  rw [← closedRuns_snoc_space]
  have := closedRuns_length (l ++ [' '])
  simpa using this

/-- Joining nonempty space-free tokens with single spaces and taking the
maximal runs gives the tokens back. -/
theorem maximalRuns_intercalate (ts : List CStr) (h : ∀ t ∈ ts, t ≠ [] ∧ ' ' ∉ t) :
    maximalRuns ([' '].intercalate ts) = ts := by
  by_cases hts : ts = []
  · subst hts
    decide
  · unfold maximalRuns
    rw [List.splitOn_intercalate ts ' ' (fun l hl => (h l hl).2) hts]
    rw [List.filter_eq_self]
    intro t ht
    simpa using (h t ht).1

/-- C1: for every command line `body ++ "\n"` that fits the line buffer of
`eval`, the tokens `parseline` finds before it removes a background marker
are exactly the maximal runs of non-space characters of `body`, from left to
right; no token is empty and no token contains a space. -/
theorem parseline_tokens_are_maximal_runs (MAXLINE : Nat) (buf0 : List Char) (body : CStr)
    (hM : MAXLINE % 2 = 0) (hbuf : buf0.length = MAXLINE) (hbody : NUL ∉ body)
    (hfit : body.length + 1 < MAXLINE) :
    evalScan MAXLINE buf0 (body ++ ['\n']) = .ok (maximalRuns body) ∧
      (∀ t ∈ maximalRuns body, t ≠ [] ∧ ' ' ∉ t) :=
  ⟨evalScan_line MAXLINE buf0 body '\n' hM hbuf hbody (by decide) hfit,
   fun t ht => maximalRuns_mem body t ht⟩

theorem parseline_tokens_are_maximal_runs_witness :
    (16 % 2 = 0 ∧ (List.replicate 16 'x').length = 16 ∧ NUL ∉ "  ls  -la  ".toList ∧
      "  ls  -la  ".toList.length + 1 < 16) ∧
    evalScan 16 (List.replicate 16 'x') "  ls  -la  \n".toList
      = .ok ["ls".toList, "-la".toList] ∧
    evalParse 16 (List.replicate 16 'x') "  ls  -la  \n".toList
      = .ok (["ls".toList, "-la".toList], false) :=
  ⟨by decide,
   (parseline_tokens_are_maximal_runs 16 (List.replicate 16 'x') "  ls  -la  ".toList
      (by decide) (by decide) (by decide) (by decide)).1.trans (by decide),
   by decide⟩


/-! ## Termination of the loop on any memory -/

theorem strchr_some (m : List Char) (p : Nat) (c : Char) (d : Nat)
    (h : strchr m p c = some (some d)) : p ≤ d ∧ p < m.length := by
  unfold strchr at h
  constructor
  · cases hs : strchrFrom c (m.drop p) with
    | none => rw [hs] at h; simp at h
    | some r =>
      rw [hs] at h
      cases r with
      | none => simp at h
      | some k =>
        simp at h
        omega
  · by_contra hlt
    rw [List.drop_eq_nil_of_le (by omega)] at h
    simp [strchrFrom] at h

theorem skipSpaces_some (m : List Char) (q p1 : Nat) (h : skipSpaces m q = some p1) :
    q ≤ p1 := by
  unfold skipSpaces at h
  cases hs : skipSpacesFrom (m.drop q) with
  | none => rw [hs] at h; simp at h
  | some k =>
    rw [hs] at h
    simp at h
    omega

/-- The loop of `parseline` never runs out of fuel when it gets more fuel
than there are cells from the pointer to the end of the array. -/
theorem parseLoop_terminates (cap : Nat) :
    ∀ (fuel : Nat) (m : List Char) (p : Nat) (argv : List Nat), m.length - p < fuel →
      parseLoop cap fuel m p argv ≠ .timeout := by
  intro fuel
  induction fuel with
  | zero => intro m p argv h; omega
  | succ f ih =>
    intro m p argv h
    rw [parseLoop]
    cases hs : strchr m p ' ' with
    | none => simp
    | some r =>
      cases r with
      | none => simp
      | some d =>
        simp only
        have ⟨h1, h2⟩ := strchr_some m p ' ' d hs
        split
        · cases hk : skipSpaces (m.set d NUL) (d + 1) with
          | none => simp
          | some p1 =>
            simp only
            have h3 := skipSpaces_some _ _ _ hk
            apply ih
            rw [List.length_set]
            omega
        · simp

theorem parseScan_terminates (cap : Nat) (m : List Char) : parseScan cap m ≠ .timeout := by
  unfold parseScan
  cases strlen m 0 with
  | none => simp
  | some n =>
    cases n with
    | zero => simp
    | succ n =>
      simp only
      cases hk : skipSpaces (m.set n ' ') 0 with
      | none => simp
      | some p =>
        simp only
        have := parseLoop_terminates cap ((m.set n ' ').length + 1) (m.set n ' ') p [] (by omega)
        cases hl : parseLoop cap ((m.set n ' ').length + 1) (m.set n ' ') p [] with
        | ok r =>
          simp only
          split <;> simp
        | fault => simp
        | timeout => exact absurd hl this

/-- `parseline` returns or reaches an access outside an array; the fuel of
the model never runs out. -/
theorem parseline_terminates (cap : Nat) (m : List Char) : parseline cap m ≠ .timeout := by
  unfold parseline
  have := parseScan_terminates cap m
  cases hs : parseScan cap m with
  | ok r =>
    simp only
    unfold parseBg
    cases r.2.getLast? with
    | none => simp
    | some q =>
      simp only
      cases m1 : r.1.get? q with
      | none => simp
      | some c =>
        simp only
        split <;> simp
  | fault => simp
  | timeout => exact absurd hs this

/-- C10: for every nonempty command line of length `n ≤ MAXLINE - 1` in the
buffer of `eval`, the scan of `parseline` completes (every access is inside
its array and the loop ends), it stores at most `n / 2` tokens, and the
tokens with the closing `NULL` take at most `MAXLINE / 2` entries of `argv`. -/
theorem parseline_argv_within_bounds (MAXLINE : Nat) (buf0 : List Char) (line : CStr)
    (hM : MAXLINE % 2 = 0) (hbuf : buf0.length = MAXLINE) (hne : line ≠ [])
    (hnul : NUL ∉ line) (hfit : line.length ≤ MAXLINE - 1) :
    ∃ buf m ptrs, strcpy buf0 line = .ok buf ∧ parseScan (MAXLINE / 2) buf = .ok (m, ptrs) ∧
      ptrs.length ≤ line.length / 2 ∧ ptrs.length + 1 ≤ MAXLINE / 2 := by
  obtain ⟨body, c, hline⟩ : ∃ body c, line = body ++ [c] :=
    ⟨line.dropLast, line.getLast hne, (List.dropLast_append_getLast hne).symm⟩
  subst hline
  have hlen : (body ++ [c]).length = body.length + 1 := by simp
  have hpos : 0 < (body ++ [c]).length := by omega
  have hbody : NUL ∉ body := fun h => hnul (by simp [h])
  have hc : c ≠ NUL := fun h => hnul (by simp [h])
  obtain ⟨m, ptrs, h1, h2, _⟩ := parseScan_line (MAXLINE / 2) body c
    (buf0.drop ((body ++ [c]).length + 1)) hbody hc (by omega)
  have h3 : ptrs.length = (maximalRuns body).length := by
    rw [← h2]
    simp [tokens]
  have h4 := maximalRuns_length body
  refine ⟨_, m, ptrs, strcpy_fits buf0 (body ++ [c]) (by omega), h1, ?_, ?_⟩
  · omega
  · omega

theorem parseline_argv_within_bounds_witness :
    (16 % 2 = 0 ∧ (List.replicate 16 'x').length = 16 ∧ "a b c d e f g \n".toList ≠ [] ∧
      NUL ∉ "a b c d e f g \n".toList ∧ "a b c d e f g \n".toList.length ≤ 16 - 1) ∧
    ∃ buf m ptrs, strcpy (List.replicate 16 'x') "a b c d e f g \n".toList = .ok buf ∧
      parseScan (16 / 2) buf = .ok (m, ptrs) ∧
      ptrs.length ≤ "a b c d e f g \n".toList.length / 2 ∧ ptrs.length + 1 ≤ 16 / 2 :=
  ⟨by decide,
   parseline_argv_within_bounds 16 (List.replicate 16 'x') "a b c d e f g \n".toList
     (by decide) (by decide) (by decide) (by decide) (by decide)⟩

/-- C3, at the failing input: on the empty command line `parseline` stores
a space at `buf[strlen(buf) - 1]`, which is outside the array, so neither
`parseline` nor `eval` completes in a defined way. -/
theorem parseline_empty_line_out_of_range (cap : Nat) (junk : List Char) (MAXLINE : Nat)
    (os : OS) (buf0 : List Char) (w : World) :
    parseline cap (NUL :: junk) = .fault ∧ parseTokens cap [] junk = .fault ∧
      eval MAXLINE os buf0 [] w = { w with status := .undefined } := by
  have h1 : ∀ (cap : Nat) (junk : List Char), parseline cap (NUL :: junk) = .fault := by
    intro cap junk
    simp [parseline, parseScan, strlen, strlenFrom]
  have h2 : evalParse MAXLINE buf0 [] = .fault := by
    unfold evalParse strcpy
    by_cases hb : ([] : CStr).length + 1 ≤ buf0.length
    · rw [if_pos hb]
      simp [parseVector, h1]
    · rw [if_neg hb]
  refine ⟨h1 cap junk, ?_, ?_⟩
  · simp [parseTokens, parseVector, h1]
  · unfold eval
    rw [h2]

/-- C9, at the failing input: for the line `ls` without a newline
`parseline` overwrites the `s` and yields the vector `["l"]`, while for
`ls` with a newline it yields `["ls"]`. -/
theorem parseline_overwrites_last_character (junk : List Char) :
    parseTokens 4096 "ls".toList junk = .ok (["l".toList], false) ∧
      parseTokens 4096 "ls\n".toList junk = .ok (["ls".toList], false) :=
  ⟨(parseTokens_line 4096 "l".toList 's' junk (by decide) (by decide) (by decide)).trans
      (by decide),
   (parseTokens_line 4096 "ls".toList '\n' junk (by decide) (by decide) (by decide)).trans
      (by decide)⟩

/-- C2, at the failing input: for the line `ls &x` the tokens are `ls` and
`&x`, and `parseline` returns the flag true and removes `&x` from the
vector, although the last token is not the string `&`. -/
theorem parseline_background_test_reads_one_character (junk : List Char) :
    scanTokens 4096 "ls &x\n".toList junk = .ok ["ls".toList, "&x".toList] ∧
      parseTokens 4096 "ls &x\n".toList junk = .ok (["ls".toList], true) :=
  ⟨(scanTokens_line 4096 "ls &x".toList '\n' junk (by decide) (by decide) (by decide)).trans
      (by decide),
   (parseTokens_line 4096 "ls &x".toList '\n' junk (by decide) (by decide) (by decide)).trans
      (by decide)⟩


/-! ## The built-in commands -/

theorem emit_trace (w : World) (e : Event) : (w.emit e).trace = w.trace ++ [e] := rfl

theorem foldl_emit (f : String → Event) (ls : List String) (w : World) :
    ls.foldl (fun w l => w.emit (f l)) w = { w with trace := w.trace ++ ls.map f } := by
  induction ls generalizing w with
  | nil => simp
  | cons l ls ih =>
    rw [List.foldl_cons, ih]
    simp [World.emit]

theorem built_help_eq (w : World) :
    built_help w
      = { w with trace := w.trace ++ helpLines.map (fun l => Event.stdout (l.toList ++ ['\n'])) } := by
  unfold built_help
  exact foldl_emit _ _ _

/-- Every built-in function leaves the prompt alone and adds to the trace
its own call followed by output events only. -/
theorem callBuiltin_trace (MAXLINE : Nat) (os : OS) (fn : Builtin) (argc : Nat)
    (argv : List CStr) (w : World) :
    ∃ evs, (callBuiltin MAXLINE os fn argc argv w).trace
        = w.trace ++ Event.builtin fn argc argv :: evs ∧
      (∀ e ∈ evs, (∃ s, e = Event.stdout s) ∨ (∃ s, e = Event.stderr s)) ∧
      (callBuiltin MAXLINE os fn argc argv w).prompt = w.prompt := by
  cases fn with
  | fnExit => exact ⟨[], by simp [callBuiltin, built_exit, World.emit], by simp, rfl⟩
  | fnPid =>
    exact ⟨[.stdout (fmtInt os.getpid ++ ['\n'])],
      by simp [callBuiltin, built_pid, World.emit], by simp, rfl⟩
  | fnPpid =>
    exact ⟨[.stdout (fmtInt os.getppid ++ ['\n'])],
      by simp [callBuiltin, built_ppid, World.emit], by simp, rfl⟩
  | fnHelp =>
    refine ⟨helpLines.map (fun l => Event.stdout (l.toList ++ ['\n'])), ?_, ?_, ?_⟩
    · simp [callBuiltin, built_help_eq, World.emit]
    · intro e he
      obtain ⟨l, _, hl⟩ := List.mem_map.mp he
      exact Or.inl ⟨_, hl.symm⟩
    · simp [callBuiltin, built_help_eq, World.emit]
  | fnCd =>
    simp only [callBuiltin, built_cd]
    by_cases h1 : argc = 1
    · rw [if_pos h1]
      cases hg : getcwd os (w.emit (.builtin .fnCd argc argv)) MAXLINE with
      | none => exact ⟨[], by simp [World.emit], by simp, rfl⟩
      | some d => exact ⟨[.stdout (d ++ ['\n'])], by simp [World.emit], by simp, rfl⟩
    · rw [if_neg h1]
      cases ha : argv.get? 1 with
      | none => exact ⟨[], by simp [World.emit], by simp, rfl⟩
      | some path =>
        simp only
        cases hc : os.chdir (w.emit (.builtin .fnCd argc argv)).cwd path with
        | ok d => exact ⟨[], by simp [World.emit], by simp, rfl⟩
        | error msg =>
          exact ⟨[.stderr ("cd: ".toList ++ msg ++ ['\n'])], by simp [World.emit], by simp, rfl⟩

theorem longDir_length : longDir.length = 8192 := by
  simp only [longDir, List.length_flatten, List.map_replicate, List.length_cons,
    List.length_replicate, List.sum_replicate, smul_eq_mul]

theorem longName_length : longName.length = 8190 := by
  simp only [longName, List.length_replicate]


/-! ## `built_cd` -/

theorem getcwd_some (os : OS) (w : World) (size : Nat) (d : CStr)
    (h : getcwd os w size = some d) : d = w.cwd ∧ w.cwd.length < size := by
  unfold getcwd at h
  split at h
  · rename_i hc
    cases h
    exact ⟨rfl, by omega⟩
  · cases h

theorem built_cd_no_argument (MAXLINE : Nat) (os : OS) (argv : List CStr) (w : World) :
    built_cd MAXLINE os 1 argv w
      = if (getcwd os w MAXLINE).isSome = true then w.emit (.stdout (w.cwd ++ ['\n']))
        else w := by
  unfold built_cd
  rw [if_pos rfl]
  cases hg : getcwd os w MAXLINE with
  | none => simp
  | some d =>
    have := (getcwd_some os w MAXLINE d hg).1
    subst this
    simp

/-- C7, counterexample: `cd` without an argument prints nothing when
`getcwd` fails: in a working directory whose path has 8192 characters, which
does not fit the buffer of `MAXLINE = 8192` bytes, and in a working
directory that has been removed, although its path `/home` fits. -/
theorem cd_prints_nothing_when_getcwd_fails :
    built_cd 8192 demoOS 1 ["cd".toList] (startWorld longDir) = startWorld longDir ∧
    (built_cd 8192 demoOS 1 ["cd".toList] (startWorld longDir)).trace
      ≠ (startWorld longDir).trace ++ [.stdout ((startWorld longDir).cwd ++ ['\n'])] ∧
    built_cd 8192 removedDirOS 1 ["cd".toList] (startWorld "/home".toList)
      = startWorld "/home".toList ∧
    (built_cd 8192 removedDirOS 1 ["cd".toList] (startWorld "/home".toList)).trace
      ≠ (startWorld "/home".toList).trace ++ [.stdout ("/home".toList ++ ['\n'])] := by
  have h : built_cd 8192 demoOS 1 ["cd".toList] (startWorld longDir) = startWorld longDir := by
    rw [built_cd_no_argument, if_neg]
    intro hs
    obtain ⟨d, hd⟩ := Option.isSome_iff_exists.mp hs
    have hlen := (getcwd_some demoOS (startWorld longDir) 8192 d hd).2
    have hl : (startWorld longDir).cwd.length = 8192 := longDir_length
    omega
  refine ⟨h, ?_, by decide, by decide⟩
  rw [h]
  intro heq
  have := congrArg List.length heq
  simp [startWorld] at this

/-- C7, amended: `cd` without an argument prints the working directory when
`getcwd` succeeds (which needs the path to fit the buffer of `MAXLINE`
bytes with its terminator), prints nothing when `getcwd` fails, and leaves
the working directory unchanged; `cd` with an argument for which `chdir`
fails prints a diagnostic, leaves the working directory and the status of
the process unchanged, and a following `cd` without an argument prints,
when its `getcwd` succeeds, the same directory as before. -/
theorem built_cd_frame (MAXLINE : Nat) (os : OS) (w : World) (argc : Nat) (argv : List CStr)
    (path msg : CStr) (hargc : argc ≠ 1) (hpath : argv.get? 1 = some path)
    (hfail : os.chdir w.cwd path = .error msg) :
    (∀ av, built_cd MAXLINE os 1 av w
      = if (getcwd os w MAXLINE).isSome = true then w.emit (.stdout (w.cwd ++ ['\n']))
        else w) ∧
    (∀ av, (built_cd MAXLINE os 1 av w).cwd = w.cwd) ∧
    built_cd MAXLINE os argc argv w = w.emit (.stderr ("cd: ".toList ++ msg ++ ['\n'])) ∧
    (built_cd MAXLINE os argc argv w).cwd = w.cwd ∧
    (built_cd MAXLINE os argc argv w).status = w.status ∧
    (∀ av, built_cd MAXLINE os 1 av (built_cd MAXLINE os argc argv w)
      = if (getcwd os (built_cd MAXLINE os argc argv w) MAXLINE).isSome = true then
          (built_cd MAXLINE os argc argv w).emit (.stdout (w.cwd ++ ['\n']))
        else built_cd MAXLINE os argc argv w) ∧
    ((getcwd os w MAXLINE).isSome = true → w.cwd.length < MAXLINE) := by
  have h1 : built_cd MAXLINE os argc argv w
      = w.emit (.stderr ("cd: ".toList ++ msg ++ ['\n'])) := by
    unfold built_cd
    rw [if_neg hargc, hpath]
    simp only
    rw [hfail]
  refine ⟨fun av => built_cd_no_argument MAXLINE os av w, ?_, h1, ?_, ?_, ?_, ?_⟩
  · intro av
    rw [built_cd_no_argument]
    split <;> rfl
  · rw [h1]
    rfl
  · rw [h1]
    rfl
  · intro av
    rw [built_cd_no_argument, h1]
    rfl
  · intro hs
    obtain ⟨d, hd⟩ := Option.isSome_iff_exists.mp hs
    exact (getcwd_some os w MAXLINE d hd).2

theorem built_cd_frame_witness :
    ((2 : Nat) ≠ 1 ∧ ["cd".toList, "/nonexistent-path".toList].get? 1
        = some "/nonexistent-path".toList ∧
      demoOS.chdir (startWorld "/home".toList).cwd "/nonexistent-path".toList
        = .error "No such file or directory".toList) ∧
    (built_cd 64 demoOS 2 ["cd".toList, "/nonexistent-path".toList]
        (startWorld "/home".toList)).cwd = "/home".toList ∧
    (built_cd 64 demoOS 1 ["cd".toList]
        (built_cd 64 demoOS 2 ["cd".toList, "/nonexistent-path".toList]
          (startWorld "/home".toList))).trace
      = [.stderr "cd: No such file or directory\n".toList, .stdout "/home\n".toList] :=
  ⟨⟨by decide, by decide, rfl⟩,
   (built_cd_frame 64 demoOS (startWorld "/home".toList) 2
      ["cd".toList, "/nonexistent-path".toList] "/nonexistent-path".toList
      "No such file or directory".toList (by decide) (by decide) rfl).2.2.2.1,
   by decide⟩

/-! ## The prompt -/

/-- C8, counterexample: with `MAXLINE = 8192` and a name of 8190 characters
the prompt after `-p <name>` is not `<name>` followed by `"> "`; `snprintf`
cuts it after 8191 characters. -/
theorem long_prompt_name_is_truncated :
    startup_prompt 8192 ["sh257".toList, "-p".toList, longName] defaultPrompt
      ≠ longName ++ "> ".toList := by
  intro h
  have h1 := congrArg List.length h
  have h2 : startup_prompt 8192 ["sh257".toList, "-p".toList, longName] defaultPrompt
      = (longName ++ "> ".toList).take 8191 := by
    unfold startup_prompt snprintf_prompt
    rw [if_pos (by decide), if_neg (by decide)]
    rfl
  rw [h2] at h1
  simp only [List.length_take, List.length_append, longName_length] at h1
  revert h1
  decide


/-! ## Traces -/

theorem forkCalls_append (t u : List Event) : forkCalls (t ++ u) = forkCalls t + forkCalls u := by
  simp [forkCalls]

theorem dispatched_append (t u : List Event) :
    dispatched (t ++ u) = dispatched t ++ dispatched u := by
  simp [dispatched]

theorem promptsShown_append (t u : List Event) :
    promptsShown (t ++ u) = promptsShown t ++ promptsShown u := by
  simp [promptsShown]

theorem quiet_events (evs : List Event) (h : ∀ e ∈ evs, e.quiet) :
    forkCalls evs = 0 ∧ dispatched evs = [] ∧ promptsShown evs = [] := by
  induction evs with
  | nil => exact ⟨rfl, rfl, rfl⟩
  | cons e es ih =>
    obtain ⟨h1, h2, h3⟩ := ih (fun e he => h e (List.mem_cons_of_mem _ he))
    obtain ⟨q1, q2, q3⟩ := h e (by simp)
    refine ⟨?_, ?_, ?_⟩
    · have := forkCalls_append [e] es
      simp only [List.singleton_append] at this
      omega
    · have := dispatched_append [e] es
      simp only [List.singleton_append] at this
      rw [this, q2, h2]
      rfl
    · have := promptsShown_append [e] es
      simp only [List.singleton_append] at this
      rw [this, q3, h3]
      rfl

theorem quiet_stdout (s : CStr) : (Event.stdout s).quiet := ⟨rfl, rfl, rfl⟩
theorem quiet_stderr (s : CStr) : (Event.stderr s).quiet := ⟨rfl, rfl, rfl⟩
theorem quiet_waitpid (p : Nat) : (Event.waitpid p).quiet := ⟨rfl, rfl, rfl⟩
theorem quiet_execvp (f : CStr) (a : List CStr) : (Event.execvp f a).quiet := ⟨rfl, rfl, rfl⟩
theorem quiet_builtin (f : Builtin) (n : Nat) (a : List CStr) : (Event.builtin f n a).quiet :=
  ⟨rfl, rfl, rfl⟩

/-- The dispatcher adds only its built-in's call and output to the trace
and leaves the prompt alone. -/
theorem builtin_command_trace (MAXLINE : Nat) (os : OS) (argv : List CStr) (w : World) :
    ∃ evs, (builtin_command MAXLINE os argv w).1.trace = w.trace ++ evs ∧
      (∀ e ∈ evs, e.quiet) ∧ (builtin_command MAXLINE os argv w).1.prompt = w.prompt := by
  cases argv with
  | nil => exact ⟨[], by simp [builtin_command], by simp, rfl⟩
  | cons arg0 rest =>
    unfold builtin_command
    simp only
    by_cases hamp : arg0 = "&".toList
    · rw [if_pos hamp]
      exact ⟨[], by simp, by simp, rfl⟩
    · rw [if_neg hamp]
      cases hl : builtin_lookup arg0 builtins with
      | none => exact ⟨[], by simp, by simp, rfl⟩
      | some fn =>
        obtain ⟨evs, h1, h2, h3⟩ := callBuiltin_trace MAXLINE os fn (arg0 :: rest).length
          (arg0 :: rest) w
        have hq : ∀ e ∈ Event.builtin fn (arg0 :: rest).length (arg0 :: rest) :: evs,
            e.quiet := by
          intro e he
          rcases List.mem_cons.mp he with h | h
          · rw [h]
            exact quiet_builtin _ _ _
          · rcases h2 e h with ⟨s, hs⟩ | ⟨s, hs⟩
            · rw [hs]
              exact quiet_stdout s
            · rw [hs]
              exact quiet_stderr s
        simp only
        split
        · exact ⟨_, h1, hq, h3⟩
        · exact ⟨_, h1, hq, h3⟩

/-- A vector the dispatcher does not handle leaves the state as it was. -/
theorem builtin_command_unhandled (MAXLINE : Nat) (os : OS) (argv : List CStr) (w : World)
    (hne : argv ≠ []) (h : (builtin_command MAXLINE os argv w).2 = some 0) :
    (builtin_command MAXLINE os argv w).1 = w := by
  cases argv with
  | nil => exact absurd rfl hne
  | cons arg0 rest =>
    unfold builtin_command at h ⊢
    simp only at h ⊢
    by_cases hamp : arg0 = "&".toList
    · rw [if_pos hamp] at h
      exact absurd h (by simp)
    · rw [if_neg hamp] at h ⊢
      cases hl : builtin_lookup arg0 builtins with
      | none => rfl
      | some fn =>
        rw [hl] at h
        simp only at h
        split at h
        · exact absurd h (by simp)
        · exact absurd h (by simp)

/-- The launcher calls `Fork` once, first, and leaves the prompt alone. -/
theorem launch_trace (os : OS) (cmdline : CStr) (argv : List CStr) (bg : Bool) (w : World) :
    ∃ evs, (launch os cmdline argv bg w).trace = w.trace ++ Event.fork (os.fork w.trace) :: evs ∧
      (∀ e ∈ evs, e.quiet) ∧ (launch os cmdline argv bg w).prompt = w.prompt := by
  unfold launch Fork
  simp only
  cases hf : os.fork w.trace with
  | failed =>
    exact ⟨[.stderr "Fork error".toList], by simp [unix_error, World.emit],
      by simp [quiet_stderr], rfl⟩
  | child =>
    simp only
    split
    · exact ⟨[.execvp (argv.headD []) argv], by simp [World.emit], by simp [quiet_execvp], rfl⟩
    · exact ⟨[.execvp (argv.headD []) argv, .stdout "Execution failed (in fork)\n".toList,
          .stdout (argv.headD [] ++ ": Command not found.\n".toList)],
        by simp [World.emit], by simp [quiet_execvp, quiet_stdout], rfl⟩
  | parent pid =>
    simp only
    cases bg with
    | true =>
      exact ⟨[.stdout (fmtInt pid ++ ' ' :: cmdline)], by simp [World.emit],
        by simp [quiet_stdout], rfl⟩
    | false =>
      simp only [Bool.not_false, if_true]
      unfold Waitpid
      simp only
      cases hw : os.waitpid (w.emit (.fork (.parent pid))).trace pid with
      | none =>
        exact ⟨[.waitpid pid, .stderr "Waitpid error".toList],
          by simp [unix_error, World.emit], by simp [quiet_stderr, quiet_waitpid], rfl⟩
      | some st =>
        cases st with
        | exited code =>
          exact ⟨[.waitpid pid, .stdout ("Process exited with status code ".toList ++
              fmtInt code ++ ['\n'])],
            by simp [World.emit], by simp [quiet_stdout, quiet_waitpid], rfl⟩
        | signaled sig =>
          exact ⟨[.waitpid pid], by simp [World.emit], by simp [quiet_waitpid], rfl⟩

/-- What `eval` does once `parseline` has returned a vector and a flag. -/
theorem eval_of_parse (MAXLINE : Nat) (os : OS) (buf0 : List Char) (cmdline : CStr) (w : World)
    (argv : List CStr) (bg : Bool) (hp : evalParse MAXLINE buf0 cmdline = .ok (argv, bg)) :
    eval MAXLINE os buf0 cmdline w =
      if argv = [] then w
      else if (builtin_command MAXLINE os argv (w.emit (.dispatch argv))).2 ≠ some 0 then
        (builtin_command MAXLINE os argv (w.emit (.dispatch argv))).1
      else launch os cmdline argv bg (w.emit (.dispatch argv)) := by
  unfold eval
  rw [hp]
  simp only
  by_cases h1 : argv = []
  · rw [if_pos h1, if_pos h1]
  · rw [if_neg h1, if_neg h1]
    by_cases h2 : (builtin_command MAXLINE os argv (w.emit (.dispatch argv))).2 ≠ some 0
    · rw [if_pos h2, if_pos h2]
    · rw [if_neg h2, if_neg h2]
      rw [builtin_command_unhandled MAXLINE os argv _ h1 (by simpa using h2)]

/-- One round of `eval` extends the trace, displays no prompt and leaves
the prompt alone. -/
theorem eval_trace (MAXLINE : Nat) (os : OS) (buf0 : List Char) (cmdline : CStr) (w : World) :
    ∃ evs, (eval MAXLINE os buf0 cmdline w).trace = w.trace ++ evs ∧
      promptsShown evs = [] ∧ (eval MAXLINE os buf0 cmdline w).prompt = w.prompt := by
  cases hp : evalParse MAXLINE buf0 cmdline with
  | fault => exact ⟨[], by simp [eval, hp], rfl, by simp [eval, hp]⟩
  | timeout => exact ⟨[], by simp [eval, hp], rfl, by simp [eval, hp]⟩
  | ok r =>
    obtain ⟨argv, bg⟩ := r
    rw [eval_of_parse MAXLINE os buf0 cmdline w argv bg hp]
    by_cases h1 : argv = []
    · rw [if_pos h1]
      exact ⟨[], by simp, rfl, rfl⟩
    · rw [if_neg h1]
      by_cases h2 : (builtin_command MAXLINE os argv (w.emit (.dispatch argv))).2 ≠ some 0
      · rw [if_pos h2]
        obtain ⟨evs, e1, e2, e3⟩ := builtin_command_trace MAXLINE os argv
          (w.emit (.dispatch argv))
        refine ⟨.dispatch argv :: evs, ?_, ?_, ?_⟩
        · rw [e1, emit_trace]
          simp
        · have := promptsShown_append [.dispatch argv] evs
          simp only [List.singleton_append] at this
          rw [this, (quiet_events evs e2).2.2]
          rfl
        · rw [e3]
          rfl
      · rw [if_neg h2]
        obtain ⟨evs, e1, e2, e3⟩ := launch_trace os cmdline argv bg (w.emit (.dispatch argv))
        refine ⟨.dispatch argv :: .fork (os.fork (w.emit (.dispatch argv)).trace) :: evs,
          ?_, ?_, ?_⟩
        · rw [e1, emit_trace]
          simp
        · have := promptsShown_append
            [.dispatch argv, .fork (os.fork (w.emit (.dispatch argv)).trace)] evs
          simp only [List.cons_append, List.nil_append] at this
          rw [this, (quiet_events evs e2).2.2]
          rfl
        · rw [e3]
          rfl


/-! ## The loop of `main` -/

/-- The loop of `main` extends the trace, never changes the prompt, and
every prompt it displays is the prompt of the state it started in. -/
theorem main_loop_prompt (MAXLINE : Nat) (os : OS) (buf0 : List Char) :
    ∀ (inputs : List Input) (w : World),
      ∃ evs, (main_loop MAXLINE os buf0 inputs w).trace = w.trace ++ evs ∧
        (∀ s ∈ promptsShown evs, s = w.prompt) ∧
        (main_loop MAXLINE os buf0 inputs w).prompt = w.prompt := by
  intro inputs
  induction inputs with
  | nil => intro w; exact ⟨[], by simp [main_loop], by simp [promptsShown], rfl⟩
  | cons i rest ih =>
    intro w
    cases i with
    | eof => exact ⟨[], by simp [main_loop], by simp [promptsShown], rfl⟩
    | sigint =>
      obtain ⟨evs, h1, h2, h3⟩ := ih (sigint_handler w)
      refine ⟨.stdout ['\n'] :: .prompt w.prompt :: evs, ?_, ?_, ?_⟩
      · rw [main_loop, h1]
        simp [sigint_handler, World.emit]
      · intro s hs
        have h4 := promptsShown_append [.stdout ['\n'], .prompt w.prompt] evs
        simp only [List.cons_append, List.nil_append] at h4
        rw [h4] at hs
        rcases List.mem_append.mp hs with h | h
        · simpa [promptsShown] using h
        · exact h2 s h
      · rw [main_loop, h3]
        rfl
    | readError =>
      obtain ⟨evs, h1, h2, h3⟩ := ih (show_prompt w)
      refine ⟨.prompt w.prompt :: evs, ?_, ?_, ?_⟩
      · rw [main_loop, h1]
        simp [show_prompt, World.emit]
      · intro s hs
        have h4 := promptsShown_append [.prompt w.prompt] evs
        simp only [List.cons_append, List.nil_append] at h4
        rw [h4] at hs
        rcases List.mem_append.mp hs with h | h
        · simpa [promptsShown] using h
        · exact h2 s h
      · rw [main_loop, h3]
        rfl
    | line l =>
      obtain ⟨evs0, g1, g2, g3⟩ := eval_trace MAXLINE os buf0 l w
      rw [main_loop]
      by_cases hrun : (eval MAXLINE os buf0 l w).status = .running
      · rw [if_pos hrun]
        obtain ⟨evs, h1, h2, h3⟩ := ih (show_prompt (eval MAXLINE os buf0 l w))
        refine ⟨evs0 ++ .prompt w.prompt :: evs, ?_, ?_, ?_⟩
        · rw [h1]
          simp [show_prompt, World.emit, g1, g3]
        · intro s hs
          rw [promptsShown_append, g2, List.nil_append] at hs
          have h4 := promptsShown_append [.prompt w.prompt] evs
          simp only [List.cons_append, List.nil_append] at h4
          rw [h4] at hs
          rcases List.mem_append.mp hs with h | h
          · simpa [promptsShown] using h
          · have := h2 s h
            rw [this]
            exact g3
        · rw [h3]
          exact g3
      · rw [if_neg hrun]
        exact ⟨evs0, g1, by simp [g2], g3⟩

theorem startup_prompt_flag (MAXLINE : Nat) (prog name prompt : CStr) (hM : 0 < MAXLINE) :
    startup_prompt MAXLINE [prog, "-p".toList, name] prompt
      = (name ++ "> ".toList).take (MAXLINE - 1) := by
  unfold startup_prompt snprintf_prompt
  rw [if_pos ⟨rfl, rfl⟩, if_neg (by omega)]
  rfl

theorem startup_prompt_default (MAXLINE : Nat) (args : List CStr) (prompt : CStr)
    (h : ¬ ∃ prog name, args = [prog, "-p".toList, name]) :
    startup_prompt MAXLINE args prompt = prompt := by
  unfold startup_prompt
  rw [if_neg]
  rintro ⟨h1, h2⟩
  apply h
  match args, h1, h2 with
  | [a, b, c], _, h2 =>
    have hb : b = "-p".toList := by simpa using h2
    exact ⟨a, c, by rw [hb]⟩

/-- C8, amended: after `program -p <name>` the prompt is `<name>` followed
by `"> "`, cut to `MAXLINE - 1` characters (so it is the whole of it when
the name has fewer than `MAXLINE - 2` characters); for every other argument
list it is `"sh257> "`; the first event of the run is the display of this
prompt, every later display shows the same prompt, and the loop never
changes it. -/
theorem prompt_fixed_at_startup (MAXLINE : Nat) (os : OS) (buf0 : List Char)
    (args : List CStr) (cwd : CStr) (inputs : List Input) (hM : 0 < MAXLINE) :
    (∀ prog name, args = [prog, "-p".toList, name] →
      startup_prompt MAXLINE args defaultPrompt = (name ++ "> ".toList).take (MAXLINE - 1)) ∧
    (∀ prog name, args = [prog, "-p".toList, name] → name.length + 2 < MAXLINE →
      startup_prompt MAXLINE args defaultPrompt = name ++ "> ".toList) ∧
    ((¬ ∃ prog name, args = [prog, "-p".toList, name]) →
      startup_prompt MAXLINE args defaultPrompt = "sh257> ".toList) ∧
    (main MAXLINE os buf0 args cwd inputs).prompt = startup_prompt MAXLINE args defaultPrompt ∧
    (∀ s ∈ promptsShown (main MAXLINE os buf0 args cwd inputs).trace,
      s = startup_prompt MAXLINE args defaultPrompt) ∧
    (main MAXLINE os buf0 args cwd inputs).trace.head?
      = some (.prompt (startup_prompt MAXLINE args defaultPrompt)) := by
  refine ⟨?_, ?_, ?_, ?_, ?_, ?_⟩
  · intro prog name h
    rw [h]
    exact startup_prompt_flag MAXLINE prog name _ hM
  · intro prog name h hlen
    rw [h, startup_prompt_flag MAXLINE prog name _ hM]
    apply List.take_of_length_le
    simp only [List.length_append]
    have : "> ".toList.length = 2 := rfl
    omega
  · intro h
    exact startup_prompt_default MAXLINE args _ h
  all_goals
    obtain ⟨evs, h1, h2, h3⟩ := main_loop_prompt MAXLINE os buf0 inputs
      (show_prompt ⟨cwd, startup_prompt MAXLINE args defaultPrompt, .running, []⟩)
    unfold main
    simp only
  · rw [h3]
    rfl
  · intro s hs
    rw [h1, promptsShown_append] at hs
    rcases List.mem_append.mp hs with h | h
    · simpa [show_prompt, World.emit, promptsShown] using h
    · rw [h2 s h]
      rfl
  · rw [h1]
    rfl

theorem prompt_fixed_at_startup_witness :
    (0 < 64) ∧
    (main 64 demoOS (List.replicate 64 'x')
      ["sh257".toList, "-p".toList, "test".toList] "/home".toList
      [.line "pid\n".toList, .sigint, .line "true\n".toList, .readError, .eof]).prompt
      = "test> ".toList ∧
    promptsShown (main 64 demoOS (List.replicate 64 'x')
      ["sh257".toList, "-p".toList, "test".toList] "/home".toList
      [.line "pid\n".toList, .sigint, .line "true\n".toList, .readError, .eof]).trace
      = ["test> ".toList, "test> ".toList, "test> ".toList, "test> ".toList,
          "test> ".toList] ∧
    promptsShown (main 64 demoOS (List.replicate 64 'x')
      ["sh257".toList, "-q".toList, "test".toList] "/home".toList
      [.line "pid\n".toList, .eof]).trace = ["sh257> ".toList, "sh257> ".toList] :=
  ⟨by decide,
   ((prompt_fixed_at_startup 64 demoOS (List.replicate 64 'x')
      ["sh257".toList, "-p".toList, "test".toList] "/home".toList
      [.line "pid\n".toList, .sigint, .line "true\n".toList, .readError, .eof]
      (by decide)).2.2.2.1).trans (by decide),
   by decide, by decide⟩

/-! ## `eval` -/

theorem maximalRuns_spaces (sp : CStr) (hsp : ∀ c ∈ sp, c = ' ') : maximalRuns sp = [] := by
  rw [← closedRuns_snoc_space, closedRuns_spaces sp [' '] hsp]
  decide

/-- A line of spaces only: `parseline` yields the empty vector and the flag
false, and `eval` returns at once, without calling the dispatcher. -/
theorem eval_blank_line (MAXLINE : Nat) (os : OS) (buf0 : List Char) (sp : CStr) (w : World)
    (hM : MAXLINE % 2 = 0) (hbuf : buf0.length = MAXLINE) (hsp : ∀ c ∈ sp, c = ' ')
    (hfit : sp.length + 1 < MAXLINE) :
    evalParse MAXLINE buf0 (sp ++ ['\n']) = .ok ([], false) ∧
      eval MAXLINE os buf0 (sp ++ ['\n']) w = w := by
  have hnul : NUL ∉ sp := by
    intro h
    exact absurd (hsp NUL h) (by decide)
  have hp : evalParse MAXLINE buf0 (sp ++ ['\n']) = .ok ([], false) := by
    rw [evalParse_line MAXLINE buf0 sp '\n' hM hbuf hnul (by decide) hfit,
      maximalRuns_spaces sp hsp]
    rfl
  refine ⟨hp, ?_⟩
  rw [eval_of_parse MAXLINE os buf0 (sp ++ ['\n']) w [] false hp, if_pos rfl]


/-- C5: for every newline-terminated command line that fits the buffer,
`eval` calls `Fork` exactly when the vector of `parseline` is nonempty and
the dispatcher returns 0, and then exactly once; the dispatcher is called
only with a nonempty vector; and when the dispatcher handles the vector the
state after `eval` is the state the dispatcher left (the built-in ran), with
no `Fork`. -/
theorem eval_forks_iff_unhandled (MAXLINE : Nat) (os : OS) (buf0 : List Char) (body : CStr)
    (w : World) (hM : MAXLINE % 2 = 0) (hbuf : buf0.length = MAXLINE) (hbody : NUL ∉ body)
    (hfit : body.length + 1 < MAXLINE) :
    ∃ argv bg evs, evalParse MAXLINE buf0 (body ++ ['\n']) = .ok (argv, bg) ∧
      (eval MAXLINE os buf0 (body ++ ['\n']) w).trace = w.trace ++ evs ∧
      (forkCalls evs = 1 ↔
        argv ≠ [] ∧ (builtin_command MAXLINE os argv (w.emit (.dispatch argv))).2 = some 0) ∧
      forkCalls evs ≤ 1 ∧
      dispatched evs = (if argv = [] then [] else [argv]) ∧
      (∀ a ∈ dispatched evs, a ≠ []) ∧
      (argv ≠ [] → (builtin_command MAXLINE os argv (w.emit (.dispatch argv))).2 ≠ some 0 →
        eval MAXLINE os buf0 (body ++ ['\n']) w
          = (builtin_command MAXLINE os argv (w.emit (.dispatch argv))).1) := by
  have hp := evalParse_line MAXLINE buf0 body '\n' hM hbuf hbody (by decide) hfit
  generalize bgSplit (maximalRuns body) = r at hp
  obtain ⟨argv, bg⟩ := r
  have he := eval_of_parse MAXLINE os buf0 (body ++ ['\n']) w argv bg hp
  by_cases h1 : argv = []
  · rw [if_pos h1] at he
    refine ⟨argv, bg, [], hp, by rw [he]; simp, ?_, by simp [forkCalls], ?_, ?_, ?_⟩
    · simp [forkCalls, h1]
    · rw [if_pos h1]
      rfl
    · intro a ha
      simp [dispatched] at ha
    · intro h
      exact absurd h1 h
  · rw [if_neg h1] at he
    by_cases h2 : (builtin_command MAXLINE os argv (w.emit (.dispatch argv))).2 ≠ some 0
    · rw [if_pos h2] at he
      obtain ⟨evs, e1, e2, _⟩ := builtin_command_trace MAXLINE os argv (w.emit (.dispatch argv))
      obtain ⟨q1, q2, _⟩ := quiet_events evs e2
      have hd : dispatched (.dispatch argv :: evs) = [argv] := by
        have := dispatched_append [.dispatch argv] evs
        simp only [List.singleton_append] at this
        rw [this, q2]
        rfl
      have hf : forkCalls (.dispatch argv :: evs) = 0 := by
        have := forkCalls_append [.dispatch argv] evs
        simp only [List.singleton_append] at this
        rw [this, q1]
        rfl
      refine ⟨argv, bg, .dispatch argv :: evs, hp, ?_, ?_, ?_, ?_, ?_, ?_⟩
      · rw [he, e1, emit_trace]
        simp
      · rw [hf]
        constructor
        · intro h
          exact absurd h (by decide)
        · intro h
          exact absurd h.2 h2
      · rw [hf]
        exact Nat.zero_le 1
      · rw [hd, if_neg h1]
      · intro a ha
        rw [hd] at ha
        rw [List.mem_singleton.mp ha]
        exact h1
      · intro _ _
        exact he
    · rw [if_neg h2] at he
      obtain ⟨evs, e1, e2, _⟩ := launch_trace os (body ++ ['\n']) argv bg (w.emit (.dispatch argv))
      obtain ⟨q1, q2, _⟩ := quiet_events evs e2
      have hd : dispatched (.dispatch argv :: .fork (os.fork (w.emit (.dispatch argv)).trace)
          :: evs) = [argv] := by
        have := dispatched_append
          [.dispatch argv, .fork (os.fork (w.emit (.dispatch argv)).trace)] evs
        simp only [List.cons_append, List.nil_append] at this
        rw [this, q2]
        rfl
      have hf : forkCalls (.dispatch argv :: .fork (os.fork (w.emit (.dispatch argv)).trace)
          :: evs) = 1 := by
        have := forkCalls_append
          [.dispatch argv, .fork (os.fork (w.emit (.dispatch argv)).trace)] evs
        simp only [List.cons_append, List.nil_append] at this
        rw [this, q1]
        rfl
      refine ⟨argv, bg, .dispatch argv :: .fork (os.fork (w.emit (.dispatch argv)).trace)
        :: evs, hp, ?_, ?_, ?_, ?_, ?_, ?_⟩
      · rw [he, e1, emit_trace]
        simp
      · rw [hf]
        exact ⟨fun _ => ⟨h1, by simpa using h2⟩, fun _ => rfl⟩
      · rw [hf]
      · rw [hd, if_neg h1]
      · intro a ha
        rw [hd] at ha
        rw [List.mem_singleton.mp ha]
        exact h1
      · intro _ h
        exact absurd h h2

theorem eval_forks_iff_unhandled_witness :
    (64 % 2 = 0 ∧ (List.replicate 64 'x').length = 64 ∧ NUL ∉ "pid".toList ∧
      "pid".toList.length + 1 < 64) ∧
    (∃ argv bg evs, evalParse 64 (List.replicate 64 'x') ("pid".toList ++ ['\n'])
        = .ok (argv, bg) ∧
      (eval 64 demoOS (List.replicate 64 'x') ("pid".toList ++ ['\n'])
        (startWorld "/home".toList)).trace = (startWorld "/home".toList).trace ++ evs ∧
      (forkCalls evs = 1 ↔ argv ≠ [] ∧ (builtin_command 64 demoOS argv
        ((startWorld "/home".toList).emit (.dispatch argv))).2 = some 0)) ∧
    (eval 64 demoOS (List.replicate 64 'x') "pid\n".toList (startWorld "/home".toList)).trace
      = [.dispatch ["pid".toList], .builtin .fnPid 1 ["pid".toList], .stdout "4242\n".toList] ∧
    forkCalls (eval 64 demoOS (List.replicate 64 'x') "true\n".toList
      (startWorld "/home".toList)).trace = 1 :=
  ⟨by decide,
   by
    obtain ⟨argv, bg, evs, h1, h2, h3, _⟩ := eval_forks_iff_unhandled 64 demoOS
      (List.replicate 64 'x') "pid".toList (startWorld "/home".toList)
      (by decide) (by decide) (by decide) (by decide)
    exact ⟨argv, bg, evs, h1, h2, h3⟩,
   by decide, by decide⟩

/-- C6: when `eval` reaches the launcher (nonempty vector, not handled) and
`Fork` returns the child `pid` to the parent: with the flag false the parent
waits for `pid` and then prints `Process exited with status code n` exactly
when the child exited normally with code `n`; with the flag true it does not
wait and prints `pid`, a space and the command line as it was passed to
`eval`. -/
theorem eval_parent_side (MAXLINE : Nat) (os : OS) (buf0 : List Char) (cmdline : CStr)
    (w : World) (argv : List CStr) (bg : Bool) (pid : Nat)
    (hparse : evalParse MAXLINE buf0 cmdline = .ok (argv, bg)) (hne : argv ≠ [])
    (hun : (builtin_command MAXLINE os argv (w.emit (.dispatch argv))).2 = some 0)
    (hfork : os.fork (w.trace ++ [.dispatch argv]) = .parent pid) :
    eval MAXLINE os buf0 cmdline w =
      if bg = true then
        w.emitAll [.dispatch argv, .fork (.parent pid), .stdout (fmtInt pid ++ ' ' :: cmdline)]
      else
        match os.waitpid (w.trace ++ [.dispatch argv, .fork (.parent pid)]) pid with
        | some (.exited n) =>
          w.emitAll [.dispatch argv, .fork (.parent pid), .waitpid pid,
            .stdout ("Process exited with status code ".toList ++ fmtInt n ++ ['\n'])]
        | some (.signaled _) =>
          w.emitAll [.dispatch argv, .fork (.parent pid), .waitpid pid]
        | none =>
          unix_error "Waitpid error".toList
            (w.emitAll [.dispatch argv, .fork (.parent pid), .waitpid pid]) := by
  rw [eval_of_parse MAXLINE os buf0 cmdline w argv bg hparse, if_neg hne,
    if_neg (by simpa using hun)]
  unfold launch Fork
  simp only [emit_trace, hfork]
  cases bg with
  | true => simp [World.emit, World.emitAll]
  | false =>
    simp only [Bool.not_false, if_true, Bool.false_eq_true, if_false]
    unfold Waitpid
    simp only [emit_trace]
    have ht : (w.trace ++ [Event.dispatch argv] ++ [Event.fork (ForkResult.parent pid)])
        = w.trace ++ [Event.dispatch argv, Event.fork (ForkResult.parent pid)] := by simp
    rw [ht]
    cases os.waitpid (w.trace ++ [.dispatch argv, .fork (.parent pid)]) pid with
    | none => simp [World.emit, World.emitAll, unix_error]
    | some st =>
      cases st with
      | exited n => simp [World.emit, World.emitAll]
      | signaled sig => simp [World.emit, World.emitAll]

theorem eval_parent_side_witness :
    (evalParse 64 (List.replicate 64 'x') "sleep 5 &\n".toList
        = .ok (["sleep".toList, "5".toList], true) ∧
      ["sleep".toList, "5".toList] ≠ [] ∧
      (builtin_command 64 demoOS ["sleep".toList, "5".toList]
        ((startWorld "/home".toList).emit (.dispatch ["sleep".toList, "5".toList]))).2 = some 0 ∧
      demoOS.fork ((startWorld "/home".toList).trace ++ [.dispatch ["sleep".toList, "5".toList]])
        = .parent 77) ∧
    eval 64 demoOS (List.replicate 64 'x') "sleep 5 &\n".toList (startWorld "/home".toList)
      = (startWorld "/home".toList).emitAll [.dispatch ["sleep".toList, "5".toList],
          .fork (.parent 77), .stdout "77 sleep 5 &\n".toList] ∧
    (eval 64 demoOS (List.replicate 64 'x') "true\n".toList (startWorld "/home".toList)).trace
      = [.dispatch ["true".toList], .fork (.parent 77), .waitpid 77,
          .stdout "Process exited with status code 0\n".toList] :=
  ⟨by decide,
   (eval_parent_side 64 demoOS (List.replicate 64 'x') "sleep 5 &\n".toList
      (startWorld "/home".toList) ["sleep".toList, "5".toList] true 77
      (by decide) (by decide) (by decide) (by decide)).trans (by decide),
   by decide⟩

end Shellex
